import Mathlib

/-!
Verification development for the Redistill in-memory key-value cache server
(`src/main.rs`, `src/lib.rs`).

The embedding is shallow: byte strings are `List Nat` (each element a u8
value), `u64`/`usize` arithmetic is `Nat` with an explicit `% 2^64` where the
Rust code can wrap (release-mode wrapping semantics), the concurrent
`DashMap` shards are association lists with unique keys (insert replaces,
remove deletes the binding), and the process-global atomics
(`TOTAL_COMMANDS`, `MEMORY_USED`, `EVICTED_KEYS`) are threaded through an
explicit `ExecState`.  Environment-dependent inputs that the code reads from
wall clocks and the `fastrand` generator (`get_uptime_seconds`,
`fastrand::u8(..100)`, `fastrand::usize(..)`) are passed as explicit
parameters / streams in an `ExecEnv`, so every definition is executable.
-/

namespace Redistill

/-- 2^64, the modulus of `u64`/`usize` wrapping arithmetic. -/
def u64size : Nat := 18446744073709551616

/-- Wrapping `u64` subtraction, as performed by `AtomicU64::fetch_sub`. -/
def u64sub (a b : Nat) : Nat := (a + (u64size - b % u64size)) % u64size

/-- Replace the element at index `i` by `f` of it (no-op when out of range).
Models in-place mutation of `self.shards[i]`. -/
def listModify {α : Type} : List α → Nat → (α → α) → List α
  | [], _, _ => []
  | x :: xs, 0, f => f x :: xs
  | x :: xs, n + 1, f => x :: listModify xs n f

/-- An entry of the store: `main.rs` / `lib.rs` `struct Entry`.  The
`AtomicU32 last_accessed` is modelled as a plain `Nat`. -/
structure Entry where
  value : List Nat
  expiry : Option Nat
  lastAccessed : Nat
deriving DecidableEq, Repr

/-- One `DashMap<Bytes, Entry>` shard, modelled as an association list with
unique keys (the hash-map key-uniqueness invariant): insert replaces the
binding in place, remove drops it. -/
abbrev Shard := List (List Nat × Entry)

/-- `struct ShardedStore`.  The Rust struct also stores `num_shards`, which
is always equal to `shards.len()` (both `new` and `clone` maintain this), so
the model derives it. -/
structure ShardedStore where
  shards : List Shard
deriving DecidableEq, Repr

/-- FNV-1a offset basis `0xcbf29ce484222325`. -/
def fnvOffset : Nat := 0xcbf29ce484222325

/-- FNV-1a prime `0x100000001b3`. -/
def fnvPrime : Nat := 0x100000001b3

/-- `ShardedStore::hash` without the final modulo: FNV-1a over the key
bytes with u64 wrapping multiply.  Bytes are u8 (the `% 256` makes the model
total on `Nat`; it is the identity on byte values). -/
def fnvHash (key : List Nat) : Nat :=
  key.foldl (fun h b => ((h ^^^ (b % 256)) * fnvPrime) % u64size) fnvOffset

def ShardedStore.numShards (st : ShardedStore) : Nat := st.shards.length

/-- `ShardedStore::hash`: FNV-1a modulo the shard count. -/
def ShardedStore.shardIdx (st : ShardedStore) (key : List Nat) : Nat :=
  fnvHash key % st.numShards

/-- The shard holding `key` (`&self.shards[self.hash(key)]`). -/
def ShardedStore.getShard (st : ShardedStore) (key : List Nat) : Shard :=
  st.shards.getD (st.shardIdx key) []

/-- `DashMap::get`: first (unique) binding of the key. -/
def shardLookup : Shard → List Nat → Option Entry
  | [], _ => none
  | (k', e') :: rest, k => if k' = k then some e' else shardLookup rest k

/-- `DashMap::insert`: replace the binding if present, append otherwise. -/
def shardInsert : Shard → List Nat → Entry → Shard
  | [], k, e => [(k, e)]
  | (k', e') :: rest, k, e =>
    if k' = k then (k, e) :: rest else (k', e') :: shardInsert rest k e

/-- `DashMap::remove`: drop the binding of the key. -/
def shardRemove : Shard → List Nat → Shard
  | [], _ => []
  | (k', e') :: rest, k =>
    if k' = k then shardRemove rest k else (k', e') :: shardRemove rest k

/-- Store the uptime into `last_accessed` of the entry of `k`
(`entry.last_accessed.store(get_uptime_seconds(), ...)`). -/
def shardTouch (sh : Shard) (k : List Nat) (uptime : Nat) : Shard :=
  sh.map (fun p => if p.1 = k then (p.1, { p.2 with lastAccessed := uptime }) else p)

/-- `ShardedStore::new`: `num_shards` empty shards. -/
def ShardedStore.new (numShards : Nat) : ShardedStore :=
  { shards := List.replicate numShards [] }

/-- `main.rs` `ShardedStore::set`.  `uptime` is the value of
`get_uptime_seconds()` read by the call.  `expiry = ttl.map(|s| now + s)`
with u64 wrapping addition. -/
def ShardedStore.set (st : ShardedStore) (key value : List Nat) (ttl : Option Nat)
    (now uptime : Nat) : ShardedStore :=
  let expiry := ttl.map (fun s => (now + s) % u64size)
  { shards := listModify st.shards (st.shardIdx key)
      (fun sh => shardInsert sh key ⟨value, expiry, uptime⟩) }

/-- `maybe_update_access_time`: skipped when `max_memory == 0`, skipped when
the `fastrand::u8(..100)` draw (`rand`) is `< 90`, otherwise stores the
uptime into `last_accessed`. -/
def maybeTouch (maxMemory rand uptime : Nat) (sh : Shard) (key : List Nat) : Shard :=
  if maxMemory = 0 then sh
  else if rand < 90 then sh
  else shardTouch sh key uptime

/-- `main.rs` `ShardedStore::get`: on a hit with `now >= expiry` the entry is
removed and `None` returned; otherwise `maybe_update_access_time` runs and
the value is returned.  `maxMemory`, `rand`, `uptime` are the environment
inputs of `maybe_update_access_time`. -/
def ShardedStore.getTouch (st : ShardedStore) (key : List Nat)
    (now maxMemory rand uptime : Nat) : Option (List Nat) × ShardedStore :=
  match shardLookup (st.getShard key) key with
  | none => (none, st)
  | some e =>
    match e.expiry with
    | some exp =>
      if now ≥ exp then
        (none, { shards := listModify st.shards (st.shardIdx key)
                   (fun sh => shardRemove sh key) })
      else
        (some e.value, { shards := listModify st.shards (st.shardIdx key)
                           (fun sh => maybeTouch maxMemory rand uptime sh key) })
    | none =>
      (some e.value, { shards := listModify st.shards (st.shardIdx key)
                         (fun sh => maybeTouch maxMemory rand uptime sh key) })

/-- `lib.rs` `ShardedStore::set`: identical to `main.rs` except
`last_accessed` is initialised to `0`. -/
def LibStore.set (st : ShardedStore) (key value : List Nat) (ttl : Option Nat)
    (now : Nat) : ShardedStore :=
  let expiry := ttl.map (fun s => (now + s) % u64size)
  { shards := listModify st.shards (st.shardIdx key)
      (fun sh => shardInsert sh key ⟨value, expiry, 0⟩) }

/-- `lib.rs` `ShardedStore::get`: identical to `main.rs` except there is no
`maybe_update_access_time` call. -/
def LibStore.get (st : ShardedStore) (key : List Nat) (now : Nat) :
    Option (List Nat) × ShardedStore :=
  match shardLookup (st.getShard key) key with
  | none => (none, st)
  | some e =>
    match e.expiry with
    | some exp =>
      if now ≥ exp then
        (none, { shards := listModify st.shards (st.shardIdx key)
                   (fun sh => shardRemove sh key) })
      else
        (some e.value, st)
    | none => (some e.value, st)

/-- Inner loop of `ShardedStore::delete` for one shard: remove each listed
key in order, counting the removals that found an entry. -/
def removeKeys : Shard → List (List Nat) → Nat × Shard
  | sh, [] => (0, sh)
  | sh, k :: ks =>
    let hit := (shardLookup sh k).isSome
    let r := removeKeys (shardRemove sh k) ks
    ((if hit then 1 else 0) + r.1, r.2)

/-- `ShardedStore::delete` walk over the shards: shard `i0 + j` processes
the keys whose hash modulo `n` is `i0 + j` (the `shard_keys` grouping). -/
def delGo (keys : List (List Nat)) (n : Nat) : List Shard → Nat → Nat × List Shard
  | [], _ => (0, [])
  | sh :: rest, i =>
    let r := removeKeys sh (keys.filter (fun k => decide (fnvHash k % n = i)))
    let r' := delGo keys n rest (i + 1)
    (r.1 + r'.1, r.2 :: r'.2)

/-- `ShardedStore::delete` (identical in `main.rs` and `lib.rs`): group keys
by shard, remove them per shard, return the number found. -/
def ShardedStore.delete (st : ShardedStore) (keys : List (List Nat)) :
    Nat × ShardedStore :=
  let r := delGo keys st.numShards st.shards 0
  (r.1, { shards := r.2 })

/-- `entry.expiry.is_none() || entry.expiry.unwrap() > now`. -/
def entryLive (e : Entry) (now : Nat) : Bool :=
  match e.expiry with
  | none => true
  | some exp => decide (exp > now)

/-- `ShardedStore::exists` (identical in both files): count the keys with a
live entry; never mutates. -/
def ShardedStore.existsCount (st : ShardedStore) (keys : List (List Nat))
    (now : Nat) : Nat :=
  keys.foldl (fun c k =>
    match shardLookup (st.getShard k) k with
    | some e => if entryLive e now then c + 1 else c
    | none => c) 0

/-- `ShardedStore::keys` (identical in both files): all live keys, shard
order then binding order. -/
def ShardedStore.keysList (st : ShardedStore) (now : Nat) : List (List Nat) :=
  (st.shards.map (fun sh => (sh.filter (fun p => entryLive p.2 now)).map Prod.fst)).flatten

/-- `ShardedStore::len` (identical in both files): sum of shard sizes. -/
def ShardedStore.len (st : ShardedStore) : Nat :=
  (st.shards.map List.length).sum

/-- `ShardedStore::clear` (identical in both files): truncate every shard. -/
def ShardedStore.clear (st : ShardedStore) : ShardedStore :=
  { shards := st.shards.map (fun _ => ([] : Shard)) }

/-- `entry_size`: key length + value length + 64 bytes overhead. -/
def entrySize (keyLen valueLen : Nat) : Nat := keyLen + valueLen + 64

/-! ### RESP writer (`struct RespWriter`), as the byte lists it appends -/

def CRLF : List Nat := [13, 10]

/-- Digits of `n`, most significant first, empty for `0`; fuel-structural
version of the `write_u64` digit loop (`fuel ≥ n` suffices). -/
def natDecGo : Nat → Nat → List Nat
  | 0, _ => []
  | _ + 1, 0 => []
  | fuel + 1, n + 1 => natDecGo fuel ((n + 1) / 10) ++ [48 + (n + 1) % 10]

/-- `RespWriter::write_u64`: minimal ASCII decimal, `0` for zero. -/
def natDec (n : Nat) : List Nat := if n = 0 then [48] else natDecGo n n

/-- `write_simple_string`: `+<s>\r\n`. -/
def writeSimpleString (s : List Nat) : List Nat := 43 :: (s ++ CRLF)

/-- `write_error`: `-ERR <s>\r\n` (the `-ERR ` prefix is always prepended to
the message passed in). -/
def writeError (s : List Nat) : List Nat := [45, 69, 82, 82, 32] ++ s ++ CRLF

/-- `write_bulk_string`: `$<len>\r\n<bytes>\r\n`. -/
def writeBulkString (s : List Nat) : List Nat :=
  36 :: (natDec s.length ++ CRLF ++ s ++ CRLF)

/-- `write_null`: `$-1\r\n`. -/
def writeNull : List Nat := [36, 45, 49, 13, 10]

/-- `write_integer`: `:<n>\r\n`. -/
def writeInteger (n : Nat) : List Nat := 58 :: (natDec n ++ CRLF)

/-- `write_array`: `*<n>\r\n` followed by the bulk strings. -/
def writeArray (arr : List (List Nat)) : List Nat :=
  42 :: (natDec arr.length ++ CRLF ++ (arr.map writeBulkString).flatten)

/-! ### RESP parser (`RespParser::try_parse`) -/

/-- Result of one `try_parse` step: `Err(())` (fatal, connection closed),
`Ok(None)` (need more bytes, nothing consumed), or `Ok(Some _)` (success).
On success the model returns the parsed argv together with the unconsumed
buffer suffix (the Rust code consumes `cursor` bytes via `advance`). -/
inductive PR (α : Type) where
  | err : PR α
  | more : PR α
  | ok : α → PR α
deriving DecidableEq, Repr

def isDigitByte (b : Nat) : Bool := decide (48 ≤ b) && decide (b ≤ 57)

/-- The shared digit-run loop of `try_parse`: accumulate ASCII digits with
usize-wrapping arithmetic until a CR, then require a LF (a present non-LF
byte after the CR yields need-more, exactly as in the code); a non-digit
non-CR byte is a fatal error. -/
def scanNum : List Nat → Nat → PR (Nat × List Nat)
  | [], _ => .more
  | b :: rest, acc =>
    if b = 13 then
      match rest with
      | [] => .more
      | nl :: rest2 => if nl = 10 then .ok (acc, rest2) else .more
    else if isDigitByte b then
      scanNum rest ((acc * 10 + (b - 48)) % u64size)
    else .err

/-- The bulk-string loop of `try_parse`: `n` elements, each
`$<len>\r\n<len bytes>XY` where the two bytes `XY` after the payload are
skipped without being checked (`cursor += str_len + 2`). -/
def parseBulks : Nat → List Nat → List (List Nat) → PR (List (List Nat) × List Nat)
  | 0, rest, acc => .ok (acc, rest)
  | n + 1, buf, acc =>
    match buf with
    | [] => .more
    | b :: rest =>
      if b = 36 then
        match scanNum rest 0 with
        | .err => .err
        | .more => .more
        | .ok (len, rest2) =>
          if rest2.length < len + 2 then .more
          else parseBulks n (rest2.drop (len + 2)) (acc ++ [rest2.take len])
      else .more

/-- `RespParser::try_parse`. -/
def tryParse (buf : List Nat) : PR (List (List Nat) × List Nat) :=
  if buf.length < 4 then .more
  else
    match buf with
    | [] => .more
    | b :: rest =>
      if b = 42 then
        match scanNum rest 0 with
        | .err => .err
        | .more => .more
        | .ok (n, rest2) => parseBulks n rest2 []
      else .err

/-! ### Eviction controller and command executor (`main.rs`) -/

/-- `enum EvictionPolicy`. -/
inductive EvictionPolicy where
  | noEviction
  | allKeysLru
  | allKeysRandom
deriving DecidableEq, Repr

/-- The configuration fields the executor reads (`CONFIG.security.password`,
`CONFIG.memory.*`; the policy is stored already parsed by
`EvictionPolicy::from_str`). -/
structure Cfg where
  password : List Nat
  maxMemory : Nat
  evictionPolicy : EvictionPolicy
  evictionSampleSize : Nat
deriving DecidableEq, Repr

/-- The process-global mutable state the executor touches: the store and the
atomics `MEMORY_USED`, `TOTAL_COMMANDS`, `EVICTED_KEYS`. -/
structure ExecState where
  store : ShardedStore
  memUsed : Nat
  totalCommands : Nat
  evictedKeys : Nat
deriving DecidableEq, Repr

/-- Environment inputs: `get_uptime_seconds()`, the `fastrand::u8(..100)`
draw of `maybe_update_access_time`, the stream of `fastrand::usize`
draws consumed by eviction sampling, and the formatted INFO body (which
depends on the process id, wall clock and float formatting, all outside the
embedding). -/
structure ExecEnv where
  uptime : Nat
  rand : Nat
  rng : List Nat
  infoPayload : List Nat
deriving Repr

/-- Mutable state threaded through eviction: store, `MEMORY_USED`,
`EVICTED_KEYS`, and the remaining random stream. -/
structure EvSt where
  store : ShardedStore
  memUsed : Nat
  evicted : Nat
  rng : List Nat
deriving Repr

/-- Sampling loop of `evict_lru`: `sample_size` rounds; each round draws a
random shard index and inspects that shard's first entry, remembering the
(key, last_accessed, shard index) with the smallest `last_accessed`
(`oldest_key.is_none() || last_accessed < oldest_time`). -/
def lruSample (store : ShardedStore) :
    Nat → List Nat → Option (List Nat × Nat × Nat) → Option (List Nat × Nat × Nat) × List Nat
  | 0, rng, best => (best, rng)
  | k + 1, rng, best =>
    let idx := rng.headD 0 % store.numShards
    match (store.shards.getD idx []).head? with
    | none => lruSample store k rng.tail best
    | some p =>
      let la := p.2.lastAccessed
      let best' :=
        match best with
        | none => some (p.1, la, idx)
        | some b => if la < b.2.1 then some (p.1, la, idx) else best
      lruSample store k rng.tail best'

/-- `evict_lru`: sample, then remove the oldest sampled key from its shard,
adjusting `MEMORY_USED` (wrapping `fetch_sub`) and `EVICTED_KEYS`; returns
the freed size (0 when nothing was evicted). -/
def evictLru (cfg : Cfg) (s : EvSt) : Nat × EvSt :=
  let r := lruSample s.store cfg.evictionSampleSize s.rng none
  match r.1 with
  | none => (0, { s with rng := r.2 })
  | some b =>
    match shardLookup (s.store.shards.getD b.2.2 []) b.1 with
    | none => (0, { s with rng := r.2 })
    | some e =>
      let size := entrySize b.1.length e.value.length
      (size,
       { store := { shards := listModify s.store.shards b.2.2 (fun sh => shardRemove sh b.1) },
         memUsed := u64sub s.memUsed size,
         evicted := s.evicted + 1,
         rng := r.2 })

/-- `evict_random`: draw one random shard, evict its first entry. -/
def evictRandom (s : EvSt) : Nat × EvSt :=
  let idx := s.rng.headD 0 % s.store.numShards
  match (s.store.shards.getD idx []).head? with
  | none => (0, { s with rng := s.rng.tail })
  | some p =>
    let size := entrySize p.1.length p.2.value.length
    (size,
     { store := { shards := listModify s.store.shards idx (fun sh => shardRemove sh p.1) },
       memUsed := u64sub s.memUsed size,
       evicted := s.evicted + 1,
       rng := s.rng.tail })

/-- The `while freed < needed && attempts < 100` loop of `evict_if_needed`;
`fuel` counts the remaining attempts.  A round that frees 0 bytes breaks. -/
def evictLoop (cfg : Cfg) (needed : Nat) : Nat → Nat → EvSt → Nat × EvSt
  | 0, freed, s => (freed, s)
  | fuel + 1, freed, s =>
    if freed < needed then
      if cfg.evictionPolicy = .noEviction then (freed, s)
      else
        let r :=
          if cfg.evictionPolicy = .allKeysLru then evictLru cfg s else evictRandom s
        if r.1 = 0 then (freed, r.2)
        else evictLoop cfg needed fuel (freed + r.1) r.2
    else (freed, s)

/-- `evict_if_needed`: admit when memory is unlimited or the budget fits;
refuse outright under `noeviction`; otherwise evict up to 100 rounds and
admit iff enough bytes were freed. -/
def evictIfNeeded (cfg : Cfg) (s : EvSt) (needed : Nat) : Bool × EvSt :=
  if cfg.maxMemory = 0 then (true, s)
  else if s.memUsed + needed ≤ cfg.maxMemory then (true, s)
  else if cfg.evictionPolicy = .noEviction then (false, s)
  else
    let r := evictLoop cfg needed 100 0 s
    (decide (r.1 ≥ needed), r.2)

/-- The SET `EX` TTL loop: accumulate ASCII digits with u64 wrapping, stop
silently at the first non-digit. -/
def parseTtlVal : List Nat → Nat → Nat
  | [], acc => acc
  | b :: rest, acc =>
    if isDigitByte b then parseTtlVal rest ((acc * 10 + (b - 48)) % u64size) else acc

/-- Plain decimal value of the longest digit prefix (no wrapping); the
specification-side reading of the TTL argument. -/
def digitPrefixVal (bs : List Nat) : Nat :=
  (bs.takeWhile isDigitByte).foldl (fun a d => a * 10 + (d - 48)) 0

/-- `b | 0x20`, the ASCII lower-casing used by the command matcher. -/
def lc (b : Nat) : Nat := b ||| 32

/-- `eq_ignore_case_3`. -/
def eqIgnoreCase3 (a : List Nat) (b0 b1 b2 : Nat) : Bool :=
  decide (a.length = 3) && decide (lc (a.getD 0 0) = b0) &&
  decide (lc (a.getD 1 0) = b1) && decide (lc (a.getD 2 0) = b2)

/-- `eq_ignore_case_6`. -/
def eqIgnoreCase6 (a : List Nat) (b0 b1 b2 b3 b4 b5 : Nat) : Bool :=
  decide (a.length = 6) && decide (lc (a.getD 0 0) = b0) &&
  decide (lc (a.getD 1 0) = b1) && decide (lc (a.getD 2 0) = b2) &&
  decide (lc (a.getD 3 0) = b3) && decide (lc (a.getD 4 0) = b4) &&
  decide (lc (a.getD 5 0) = b5)

/-- `matches!(cmd.len(), 4 if eq_ignore_case_3(&cmd[..3], b"aut") && (cmd[3]|0x20) == b'h')`. -/
def isAuthCmd (cmd : List Nat) : Bool :=
  decide (cmd.length = 4) && eqIgnoreCase3 (cmd.take 3) 97 117 116 &&
  decide (lc (cmd.getD 3 0) = 104)

/-- The PING matcher (`pin` + `g`). -/
def isPingCmd (cmd : List Nat) : Bool :=
  decide (cmd.length = 4) && eqIgnoreCase3 (cmd.take 3) 112 105 110 &&
  decide (lc (cmd.getD 3 0) = 103)

/-- The KEYS matcher (`key` + `s`). -/
def isKeysCmd (cmd : List Nat) : Bool :=
  eqIgnoreCase3 (cmd.take 3) 107 101 121 && decide (lc (cmd.getD 3 0) = 115)

/-- The INFO matcher (`inf` + `o`). -/
def isInfoCmd (cmd : List Nat) : Bool :=
  eqIgnoreCase3 (cmd.take 3) 105 110 102 && decide (lc (cmd.getD 3 0) = 111)

/-- "empty command" -/
def emptyCmdMsg : List Nat := [101, 109, 112, 116, 121, 32, 99, 111, 109, 109, 97, 110, 100]

/-- "NOAUTH Authentication required" -/
def noAuthMsg : List Nat :=
  [78, 79, 65, 85, 84, 72, 32, 65, 117, 116, 104, 101, 110, 116, 105, 99, 97, 116,
   105, 111, 110, 32, 114, 101, 113, 117, 105, 114, 101, 100]

/-- "unknown command" -/
def unknownMsg : List Nat :=
  [117, 110, 107, 110, 111, 119, 110, 32, 99, 111, 109, 109, 97, 110, 100]

/-- "wrong number of arguments" -/
def wrongArgsMsg : List Nat :=
  [119, 114, 111, 110, 103, 32, 110, 117, 109, 98, 101, 114, 32, 111, 102, 32, 97,
   114, 103, 117, 109, 101, 110, 116, 115]

/-- "OOM command not allowed when used memory > 'maxmemory'" -/
def oomMsg : List Nat :=
  [79, 79, 77, 32, 99, 111, 109, 109, 97, 110, 100, 32, 110, 111, 116, 32, 97, 108,
   108, 111, 119, 101, 100, 32, 119, 104, 101, 110, 32, 117, 115, 101, 100, 32, 109,
   101, 109, 111, 114, 121, 32, 62, 32, 39, 109, 97, 120, 109, 101, 109, 111, 114,
   121, 39]

/-- "ERR invalid password" (note: the branch passes a message that itself
starts with `ERR `, and `write_error` prepends `-ERR ` on top). -/
def errInvalidPasswordMsg : List Nat :=
  [69, 82, 82, 32, 105, 110, 118, 97, 108, 105, 100, 32, 112, 97, 115, 115, 119,
   111, 114, 100]

/-- "ERR wrong number of arguments for 'auth' command" -/
def errAuthArgsMsg : List Nat :=
  [69, 82, 82, 32, 119, 114, 111, 110, 103, 32, 110, 117, 109, 98, 101, 114, 32,
   111, 102, 32, 97, 114, 103, 117, 109, 101, 110, 116, 115, 32, 102, 111, 114, 32,
   39, 97, 117, 116, 104, 39, 32, 99, 111, 109, 109, 97, 110, 100]

/-- "ERR Client sent AUTH, but no password is set" -/
def errNoPasswordMsg : List Nat :=
  [69, 82, 82, 32, 67, 108, 105, 101, 110, 116, 32, 115, 101, 110, 116, 32, 65, 85,
   84, 72, 44, 32, 98, 117, 116, 32, 110, 111, 32, 112, 97, 115, 115, 119, 111, 114,
   100, 32, 105, 115, 32, 115, 101, 116]

/-- "OK" -/
def okMsg : List Nat := [79, 75]

/-- "PONG" -/
def pongMsg : List Nat := [80, 79, 78, 71]

/-- `b"*0\r\n"`, the raw empty-array reply of CONFIG / COMMAND. -/
def emptyArrayRaw : List Nat := [42, 48, 13, 10]

/-- "flushdb" -/
def flushdbBytes : List Nat := [102, 108, 117, 115, 104, 100, 98]

/-- "command" -/
def commandBytes : List Nat := [99, 111, 109, 109, 97, 110, 100]

/-- `execute_command`: increments `TOTAL_COMMANDS`, handles the empty argv,
the authentication gate, and the length-keyed command matcher.  Returns the
updated global state, the bytes appended to the writer, and the new
`state.authenticated`. -/
def execute_command (cfg : Cfg) (σ : ExecState) (command : List (List Nat))
    (authenticated : Bool) (now : Nat) (env : ExecEnv) :
    ExecState × List Nat × Bool :=
  let σ := { σ with totalCommands := σ.totalCommands + 1 }
  if command.isEmpty then (σ, writeError emptyCmdMsg, authenticated)
  else
    let cmd := command.headD []
    let requiresAuth := !isAuthCmd cmd && !isPingCmd cmd
    if requiresAuth && !authenticated then (σ, writeError noAuthMsg, authenticated)
    else if cmd.length = 3 then
      if eqIgnoreCase3 cmd 115 101 116 then
        -- SET
        if command.length ≥ 3 then
          let key := command.getD 1 []
          let value := command.getD 2 []
          let size := entrySize key.length value.length
          let ev := evictIfNeeded cfg ⟨σ.store, σ.memUsed, σ.evictedKeys, env.rng⟩ size
          if ev.1 then
            let exArg := command.getD 3 []
            let ttl :=
              if command.length ≥ 5 && decide (exArg.length = 2) &&
                 decide (lc (exArg.getD 0 0) = 101) && decide (lc (exArg.getD 1 0) = 120) then
                let v := parseTtlVal (command.getD 4 []) 0
                if v > 0 then some v else none
              else none
            let store' := (ev.2.store).set key value ttl now env.uptime
            let mem' := if cfg.maxMemory > 0 then (ev.2.memUsed + size) % u64size
                        else ev.2.memUsed
            ({ σ with store := store', memUsed := mem', evictedKeys := ev.2.evicted },
             writeSimpleString okMsg, authenticated)
          else
            ({ σ with store := ev.2.store, memUsed := ev.2.memUsed,
                      evictedKeys := ev.2.evicted },
             writeError oomMsg, authenticated)
        else (σ, writeError wrongArgsMsg, authenticated)
      else if eqIgnoreCase3 cmd 103 101 116 then
        -- GET
        if command.length ≥ 2 then
          let r := σ.store.getTouch (command.getD 1 []) now cfg.maxMemory env.rand env.uptime
          match r.1 with
          | some v => ({ σ with store := r.2 }, writeBulkString v, authenticated)
          | none => ({ σ with store := r.2 }, writeNull, authenticated)
        else (σ, writeError wrongArgsMsg, authenticated)
      else if eqIgnoreCase3 cmd 100 101 108 then
        -- DEL
        if command.length ≥ 2 then
          let r := σ.store.delete command.tail
          ({ σ with store := r.2 }, writeInteger r.1, authenticated)
        else (σ, writeError wrongArgsMsg, authenticated)
      else (σ, writeError unknownMsg, authenticated)
    else if cmd.length = 4 then
      if isPingCmd cmd then (σ, writeSimpleString pongMsg, authenticated)
      else if isKeysCmd cmd then (σ, writeArray (σ.store.keysList now), authenticated)
      else if isAuthCmd cmd then
        if cfg.password ≠ [] then
          if command.length ≥ 2 then
            if command.getD 1 [] = cfg.password then (σ, writeSimpleString okMsg, true)
            else (σ, writeError errInvalidPasswordMsg, authenticated)
          else (σ, writeError errAuthArgsMsg, authenticated)
        else (σ, writeError errNoPasswordMsg, authenticated)
      else if isInfoCmd cmd then (σ, writeBulkString env.infoPayload, authenticated)
      else (σ, writeError unknownMsg, authenticated)
    else if cmd.length = 6 then
      if eqIgnoreCase6 cmd 101 120 105 115 116 115 then
        -- EXISTS
        if command.length ≥ 2 then
          (σ, writeInteger (σ.store.existsCount command.tail now), authenticated)
        else (σ, writeError wrongArgsMsg, authenticated)
      else if eqIgnoreCase6 cmd 100 98 115 105 122 101 then
        (σ, writeInteger σ.store.len, authenticated)
      else if eqIgnoreCase6 cmd 99 111 110 102 105 103 then
        (σ, emptyArrayRaw, authenticated)
      else (σ, writeError unknownMsg, authenticated)
    else if cmd.length = 7 then
      if cmd.map lc = flushdbBytes then
        ({ σ with store := σ.store.clear }, writeSimpleString okMsg, authenticated)
      else if cmd.map lc = commandBytes then (σ, emptyArrayRaw, authenticated)
      else (σ, writeError unknownMsg, authenticated)
    else (σ, writeError unknownMsg, authenticated)

/-! ### Store operation sequences (for the frame property C1 and the
`lib.rs`/`main.rs` equivalence C10) -/

/-- One store-level call.  The trailing `Nat` arguments of `setOp` / `getOp`
are the environment inputs (`get_uptime_seconds`, `CONFIG.memory.max_memory`,
the `fastrand` draw) that the `main.rs` variant reads; the `lib.rs` variant
ignores them. -/
inductive StoreOp where
  | setOp (k v : List Nat) (ttl : Option Nat) (now uptime : Nat)
  | getOp (k : List Nat) (now maxMemory rand uptime : Nat)
  | delOp (ks : List (List Nat))
  | existsOp (ks : List (List Nat)) (now : Nat)
  | keysOp (now : Nat)
  | lenOp
  | clearOp
deriving DecidableEq, Repr

/-- Observable result of one store-level call. -/
inductive OpOut where
  | unit : OpOut
  | val : Option (List Nat) → OpOut
  | cnt : Nat → OpOut
  | lst : List (List Nat) → OpOut
deriving DecidableEq, Repr

/-- One step of the `main.rs` store. -/
def mainStep (st : ShardedStore) : StoreOp → OpOut × ShardedStore
  | .setOp k v ttl now up => (.unit, st.set k v ttl now up)
  | .getOp k now mm r up =>
    let g := st.getTouch k now mm r up
    (.val g.1, g.2)
  | .delOp ks =>
    let d := st.delete ks
    (.cnt d.1, d.2)
  | .existsOp ks now => (.cnt (st.existsCount ks now), st)
  | .keysOp now => (.lst (st.keysList now), st)
  | .lenOp => (.cnt st.len, st)
  | .clearOp => (.unit, st.clear)

/-- One step of the `lib.rs` store. -/
def libStep (st : ShardedStore) : StoreOp → OpOut × ShardedStore
  | .setOp k v ttl now _ => (.unit, LibStore.set st k v ttl now)
  | .getOp k now _ _ _ =>
    let g := LibStore.get st k now
    (.val g.1, g.2)
  | .delOp ks =>
    let d := st.delete ks
    (.cnt d.1, d.2)
  | .existsOp ks now => (.cnt (st.existsCount ks now), st)
  | .keysOp now => (.lst (st.keysList now), st)
  | .lenOp => (.cnt st.len, st)
  | .clearOp => (.unit, st.clear)

/-- Run a sequence of calls against the `main.rs` store. -/
def runMain : ShardedStore → List StoreOp → List OpOut × ShardedStore
  | st, [] => ([], st)
  | st, op :: ops =>
    let s := mainStep st op
    let r := runMain s.2 ops
    (s.1 :: r.1, r.2)

/-- Run a sequence of calls against the `lib.rs` store. -/
def runLib : ShardedStore → List StoreOp → List OpOut × ShardedStore
  | st, [] => ([], st)
  | st, op :: ops =>
    let s := libStep st op
    let r := runLib s.2 ops
    (s.1 :: r.1, r.2)

/-- The store after a sequence of `main.rs` calls. -/
def runMainStore (st : ShardedStore) (ops : List StoreOp) : ShardedStore :=
  (runMain st ops).2

/-- Does the call write the key `k`?  (`set` of `k`, a `delete` batch listing
`k`, or `clear`.) -/
def affectsKey (k : List Nat) : StoreOp → Bool
  | .setOp k' _ _ _ _ => decide (k' = k)
  | .delOp ks => decide (k ∈ ks)
  | .clearOp => true
  | _ => false

/-- Zero the `last_accessed` bookkeeping of an entry. -/
def eraseE (e : Entry) : Entry := { e with lastAccessed := 0 }

/-- Zero the `last_accessed` bookkeeping of a shard. -/
def eraseShard (sh : Shard) : Shard := sh.map (fun p => (p.1, eraseE p.2))

/-- Zero the `last_accessed` bookkeeping of a store: the observable part. -/
def eraseLA (st : ShardedStore) : ShardedStore := { shards := st.shards.map eraseShard }


/-- `k` is stored with value `v` and no expiry. -/
def hasPersistent (st : ShardedStore) (k v : List Nat) : Prop :=
  ∃ la, shardLookup (st.getShard k) k = some ⟨v, none, la⟩

/-- Decimal value of a digit string starting from an accumulator, without
wrapping (the specification-side value). -/
def decValFrom (acc : Nat) (ds : List Nat) : Nat :=
  ds.foldl (fun a d => a * 10 + (d - 48)) acc

/-- The same accumulation with u64 wrapping at each step, as the parsing
loops in the code perform it. -/
def foldlMod (acc : Nat) (ds : List Nat) : Nat :=
  ds.foldl (fun a d => (a * 10 + (d - 48)) % u64size) acc

/-! ## Helper lemmas: `listModify`, shard operations -/

theorem listModify_length {α : Type} (l : List α) (i : Nat) (f : α → α) :
    (listModify l i f).length = l.length := by
  induction l generalizing i with
  | nil => rfl
  | cons x xs ih =>
    cases i with
    | zero => rfl
    | succ n => simp [listModify, ih]

theorem getD_listModify_self {α : Type} (l : List α) (i : Nat) (f : α → α) (d : α)
    (h : i < l.length) : (listModify l i f).getD i d = f (l.getD i d) := by
  induction l generalizing i with
  | nil => simp at h
  | cons x xs ih =>
    cases i with
    | zero => rfl
    | succ n =>
      simp only [listModify, List.getD_cons_succ]
      exact ih n (by simpa using h)

theorem getD_listModify_ne {α : Type} (l : List α) (i j : Nat) (f : α → α) (d : α)
    (h : j ≠ i) : (listModify l i f).getD j d = l.getD j d := by
  induction l generalizing i j with
  | nil => rfl
  | cons x xs ih =>
    cases i with
    | zero =>
      cases j with
      | zero => exact absurd rfl h
      | succ m => rfl
    | succ n =>
      cases j with
      | zero => rfl
      | succ m =>
        simp only [listModify, List.getD_cons_succ]
        exact ih n m (fun hh => h (by rw [hh]))

theorem shardLookup_insert_self (sh : Shard) (k : List Nat) (e : Entry) :
    shardLookup (shardInsert sh k e) k = some e := by
  induction sh with
  | nil => simp [shardInsert, shardLookup]
  | cons p rest ih =>
    by_cases h : p.1 = k
    · simp [shardInsert, h, shardLookup]
    · simp [shardInsert, h, shardLookup, ih]

theorem shardLookup_insert_ne (sh : Shard) (k k' : List Nat) (e : Entry)
    (h : k' ≠ k) : shardLookup (shardInsert sh k' e) k = shardLookup sh k := by
  induction sh with
  | nil => simp [shardInsert, shardLookup, h]
  | cons p rest ih =>
    by_cases hp : p.1 = k'
    · simp [shardInsert, hp, shardLookup, h]
    · simp [shardInsert, hp, shardLookup, ih]

theorem shardLookup_remove_self (sh : Shard) (k : List Nat) :
    shardLookup (shardRemove sh k) k = none := by
  induction sh with
  | nil => rfl
  | cons p rest ih =>
    obtain ⟨k', e'⟩ := p
    by_cases h : k' = k
    · simpa [shardRemove, h] using ih
    · simpa [shardRemove, h, shardLookup] using ih

theorem shardLookup_remove_ne (sh : Shard) (k k' : List Nat) (h : k' ≠ k) :
    shardLookup (shardRemove sh k') k = shardLookup sh k := by
  induction sh with
  | nil => rfl
  | cons p rest ih =>
    obtain ⟨q, e'⟩ := p
    by_cases hq : q = k'
    · have hk : ¬ q = k := by rw [hq]; exact h
      simp [shardRemove, hq, shardLookup, hk, ih, h]
    · simp [shardRemove, hq, shardLookup, ih]

theorem shardLookup_touch_self (sh : Shard) (k : List Nat) (u : Nat) :
    shardLookup (shardTouch sh k u) k =
      (shardLookup sh k).map (fun e => { e with lastAccessed := u }) := by
  induction sh with
  | nil => rfl
  | cons p rest ih =>
    simp only [shardTouch, List.map_cons] at *
    by_cases h : p.1 = k
    · rw [if_pos h]
      simp [shardLookup, h, ih]
    · rw [if_neg h]
      simp [shardLookup, h, ih]

theorem shardLookup_touch_ne (sh : Shard) (k k' : List Nat) (u : Nat) (h : k' ≠ k) :
    shardLookup (shardTouch sh k' u) k = shardLookup sh k := by
  induction sh with
  | nil => rfl
  | cons p rest ih =>
    simp only [shardTouch, List.map_cons] at *
    by_cases hp : p.1 = k'
    · rw [if_pos hp]
      have hk : ¬ p.1 = k := by rw [hp]; exact h
      simp [shardLookup, hk, ih]
    · rw [if_neg hp]
      simp [shardLookup, ih]

/-! ## Store-level index lemmas -/

theorem numShards_mk_modify (st : ShardedStore) (i : Nat) (f : Shard → Shard) :
    (ShardedStore.mk (listModify st.shards i f)).numShards = st.numShards := by
  simp [ShardedStore.numShards, listModify_length]

theorem shardIdx_congr (st st' : ShardedStore) (h : st'.numShards = st.numShards)
    (k : List Nat) : st'.shardIdx k = st.shardIdx k := by
  simp [ShardedStore.shardIdx, h]

theorem getShard_modify (st : ShardedStore) (k' k : List Nat) (f : Shard → Shard)
    (h : 0 < st.numShards) :
    (ShardedStore.mk (listModify st.shards (st.shardIdx k') f)).getShard k =
      if st.shardIdx k' = st.shardIdx k then f (st.getShard k) else st.getShard k := by
  have hns : (ShardedStore.mk (listModify st.shards (st.shardIdx k') f)).numShards
      = st.numShards := numShards_mk_modify st _ f
  have hidx : (ShardedStore.mk (listModify st.shards (st.shardIdx k') f)).shardIdx k
      = st.shardIdx k := shardIdx_congr st _ hns k
  have hlt : st.shardIdx k' < st.shards.length := by
    have := Nat.mod_lt (fnvHash k') h
    simpa [ShardedStore.shardIdx, ShardedStore.numShards] using this
  simp only [ShardedStore.getShard, hidx]
  by_cases hc : st.shardIdx k' = st.shardIdx k
  · rw [if_pos hc, ← hc]
    exact getD_listModify_self st.shards (st.shardIdx k') f [] hlt
  · rw [if_neg hc]
    exact getD_listModify_ne st.shards (st.shardIdx k') (st.shardIdx k) f []
      (fun hh => hc hh.symm)

theorem numShards_set (st : ShardedStore) (k v : List Nat) (ttl : Option Nat)
    (now up : Nat) : (st.set k v ttl now up).numShards = st.numShards :=
  numShards_mk_modify st _ _

theorem numShards_getTouch (st : ShardedStore) (k : List Nat) (now mm r u : Nat) :
    ((st.getTouch k now mm r u).2).numShards = st.numShards := by
  unfold ShardedStore.getTouch
  rcases hL : shardLookup (st.getShard k) k with _ | e
  · simp [hL]
  · rcases hE : e.expiry with _ | exp
    · simp [hL, hE, numShards_mk_modify]
    · by_cases hnow : now ≥ exp
      · simp [hL, hE, hnow, numShards_mk_modify]
      · simp [hL, hE, hnow, numShards_mk_modify]

theorem delGo_snd_length (keys : List (List Nat)) (n : Nat) (l : List Shard) (i : Nat) :
    ((delGo keys n l i).2).length = l.length := by
  induction l generalizing i with
  | nil => rfl
  | cons sh rest ih => simp [delGo, ih]

theorem numShards_delete (st : ShardedStore) (keys : List (List Nat)) :
    ((st.delete keys).2).numShards = st.numShards := by
  simp [ShardedStore.delete, ShardedStore.numShards, delGo_snd_length]

theorem numShards_clear (st : ShardedStore) : (st.clear).numShards = st.numShards := by
  simp [ShardedStore.clear, ShardedStore.numShards]

/-! ## The persistent-entry invariant (claim C1) -/

theorem removeKeys_nil_snd (ks : List (List Nat)) : (removeKeys [] ks).2 = [] := by
  induction ks with
  | nil => rfl
  | cons a as ih => simpa [removeKeys, shardRemove, shardLookup] using ih

theorem removeKeys_lookup_notmem (sh : Shard) (ks : List (List Nat)) (k : List Nat)
    (h : k ∉ ks) : shardLookup ((removeKeys sh ks).2) k = shardLookup sh k := by
  induction ks generalizing sh with
  | nil => rfl
  | cons a as ih =>
    have hak : a ≠ k := fun hh => h (hh ▸ List.mem_cons_self a as)
    have hmem : k ∉ as := fun hh => h (List.mem_cons_of_mem a hh)
    simp only [removeKeys]
    rw [ih _ hmem, shardLookup_remove_ne _ _ _ hak]

theorem delGo_getD (keys : List (List Nat)) (n : Nat) (l : List Shard) (i0 j : Nat) :
    ((delGo keys n l i0).2).getD j [] =
      (removeKeys (l.getD j []) (keys.filter (fun k => decide (fnvHash k % n = i0 + j)))).2 := by
  induction l generalizing i0 j with
  | nil =>
    simp [delGo, removeKeys_nil_snd]
  | cons sh rest ih =>
    cases j with
    | zero => simp [delGo]
    | succ m =>
      simp only [delGo, List.getD_cons_succ]
      rw [ih (i0 + 1) m]
      have : i0 + 1 + m = i0 + (m + 1) := by omega
      rw [this]

theorem hasPersistent_set_self (st : ShardedStore) (k v : List Nat) (now up : Nat)
    (h : 0 < st.numShards) : hasPersistent (st.set k v none now up) k v := by
  refine ⟨up, ?_⟩
  show shardLookup ((st.set k v none now up).getShard k) k = _
  simp only [ShardedStore.set, Option.map_none']
  rw [getShard_modify st k k _ h, if_pos rfl]
  exact shardLookup_insert_self _ _ _

theorem hasPersistent_set_other (st : ShardedStore) (k v k' v' : List Nat)
    (ttl : Option Nat) (now up : Nat) (h : 0 < st.numShards) (hne : k' ≠ k)
    (hp : hasPersistent st k v) : hasPersistent (st.set k' v' ttl now up) k v := by
  obtain ⟨la, hla⟩ := hp
  refine ⟨la, ?_⟩
  show shardLookup ((st.set k' v' ttl now up).getShard k) k = _
  simp only [ShardedStore.set]
  rw [getShard_modify st k' k _ h]
  by_cases hc : st.shardIdx k' = st.shardIdx k
  · rw [if_pos hc, shardLookup_insert_ne _ _ _ _ hne]
    exact hla
  · rw [if_neg hc]
    exact hla

theorem shardLookup_maybeTouch_pres (sh : Shard) (k' k : List Nat) (mm r u : Nat)
    (v : List Nat) (la : Nat) (hla : shardLookup sh k = some ⟨v, none, la⟩) :
    ∃ la2, shardLookup (maybeTouch mm r u sh k') k = some ⟨v, none, la2⟩ := by
  unfold maybeTouch
  by_cases h0 : mm = 0
  · rw [if_pos h0]
    exact ⟨la, hla⟩
  · rw [if_neg h0]
    by_cases h90 : r < 90
    · rw [if_pos h90]
      exact ⟨la, hla⟩
    · rw [if_neg h90]
      by_cases hk : k' = k
      · subst hk
        refine ⟨u, ?_⟩
        rw [shardLookup_touch_self, hla]
        rfl
      · refine ⟨la, ?_⟩
        rw [shardLookup_touch_ne _ _ _ _ hk]
        exact hla

theorem hasPersistent_getTouch (st : ShardedStore) (k v k' : List Nat)
    (now mm r u : Nat) (h : 0 < st.numShards) (hp : hasPersistent st k v) :
    hasPersistent ((st.getTouch k' now mm r u).2) k v := by
  obtain ⟨la, hla⟩ := hp
  unfold ShardedStore.getTouch
  rcases hL : shardLookup (st.getShard k') k' with _ | e
  · simp only [hL]
    exact ⟨la, hla⟩
  · rcases hE : e.expiry with _ | exp
    · simp only [hL, hE]
      have hgs := getShard_modify st k' k (fun sh => maybeTouch mm r u sh k') h
      by_cases hc : st.shardIdx k' = st.shardIdx k
      · rw [if_pos hc] at hgs
        obtain ⟨la2, hla2⟩ := shardLookup_maybeTouch_pres (st.getShard k) k' k mm r u v la hla
        exact ⟨la2, by rw [hgs]; exact hla2⟩
      · rw [if_neg hc] at hgs
        exact ⟨la, by rw [hgs]; exact hla⟩
    · by_cases hnow : now ≥ exp
      · simp only [hL, hE, if_pos hnow]
        have hkne : k' ≠ k := by
          intro hh
          subst hh
          rw [hla] at hL
          cases hL
          simp at hE
        have hgs := getShard_modify st k' k (fun sh => shardRemove sh k') h
        by_cases hc : st.shardIdx k' = st.shardIdx k
        · rw [if_pos hc] at hgs
          refine ⟨la, ?_⟩
          rw [hgs, shardLookup_remove_ne _ _ _ hkne]
          exact hla
        · rw [if_neg hc] at hgs
          exact ⟨la, by rw [hgs]; exact hla⟩
      · simp only [hL, hE, if_neg hnow]
        have hgs := getShard_modify st k' k (fun sh => maybeTouch mm r u sh k') h
        by_cases hc : st.shardIdx k' = st.shardIdx k
        · rw [if_pos hc] at hgs
          obtain ⟨la2, hla2⟩ := shardLookup_maybeTouch_pres (st.getShard k) k' k mm r u v la hla
          exact ⟨la2, by rw [hgs]; exact hla2⟩
        · rw [if_neg hc] at hgs
          exact ⟨la, by rw [hgs]; exact hla⟩

theorem hasPersistent_delete (st : ShardedStore) (ks : List (List Nat))
    (k v : List Nat) (h : 0 < st.numShards) (hk : k ∉ ks)
    (hp : hasPersistent st k v) : hasPersistent ((st.delete ks).2) k v := by
  obtain ⟨la, hla⟩ := hp
  refine ⟨la, ?_⟩
  have hidx2 : (ShardedStore.mk (delGo ks st.numShards st.shards 0).2).shardIdx k
      = st.shardIdx k := by
    apply shardIdx_congr
    simp [ShardedStore.numShards, delGo_snd_length]
  show shardLookup ((ShardedStore.mk (delGo ks st.numShards st.shards 0).2).getShard k) k = _
  simp only [ShardedStore.getShard, hidx2]
  rw [delGo_getD]
  have hnot : k ∉ ks.filter (fun k2 => decide (fnvHash k2 % st.numShards = 0 + st.shardIdx k)) := by
    intro hmem
    exact hk (List.mem_filter.mp hmem).1
  rw [removeKeys_lookup_notmem _ _ _ hnot]
  exact hla

theorem getTouch_of_hasPersistent (st : ShardedStore) (k v : List Nat)
    (now mm r u : Nat) (hp : hasPersistent st k v) :
    (st.getTouch k now mm r u).1 = some v := by
  obtain ⟨la, hla⟩ := hp
  unfold ShardedStore.getTouch
  rw [hla]

theorem numShards_mainStep (st : ShardedStore) (op : StoreOp) :
    ((mainStep st op).2).numShards = st.numShards := by
  cases op with
  | setOp k v ttl now up => exact numShards_set st k v ttl now up
  | getOp k now mm r up => exact numShards_getTouch st k now mm r up
  | delOp ks => exact numShards_delete st ks
  | existsOp ks now => rfl
  | keysOp now => rfl
  | lenOp => rfl
  | clearOp => exact numShards_clear st

theorem hasPersistent_mainStep (st : ShardedStore) (op : StoreOp) (k v : List Nat)
    (h : 0 < st.numShards) (hop : affectsKey k op = false)
    (hp : hasPersistent st k v) : hasPersistent ((mainStep st op).2) k v := by
  cases op with
  | setOp k' v' ttl now up =>
    have hne : k' ≠ k := by simpa [affectsKey] using hop
    exact hasPersistent_set_other st k v k' v' ttl now up h hne hp
  | getOp k' now mm r up => exact hasPersistent_getTouch st k v k' now mm r up h hp
  | delOp ks =>
    have hk : k ∉ ks := by simpa [affectsKey] using hop
    exact hasPersistent_delete st ks k v h hk hp
  | existsOp ks now => exact hp
  | keysOp now => exact hp
  | lenOp => exact hp
  | clearOp => simp [affectsKey] at hop

theorem hasPersistent_runMain (ops : List StoreOp) (st : ShardedStore) (k v : List Nat)
    (h : 0 < st.numShards) (hp : hasPersistent st k v)
    (hops : ∀ op ∈ ops, affectsKey k op = false) :
    hasPersistent (runMainStore st ops) k v ∧ 0 < (runMainStore st ops).numShards := by
  induction ops generalizing st with
  | nil => exact ⟨hp, h⟩
  | cons op ops ih =>
    have h1 := hasPersistent_mainStep st op k v h (hops op (List.mem_cons_self op ops)) hp
    have h2 : 0 < ((mainStep st op).2).numShards := by
      rw [numShards_mainStep]
      exact h
    have h3 := ih ((mainStep st op).2) h2 h1 (fun o ho => hops o (List.mem_cons_of_mem op ho))
    simpa [runMainStore, runMain] using h3

/-- C1: after `set(k, v, None, t)` on the sharded store, `get(k, t')` returns
`Some v` for every `t' ≥ t`, until a subsequent `set`, `delete`, or `clear`
affecting `k`: every intervening operation sequence whose elements do not
affect `k` (no `set` of `k`, no `delete` batch listing `k`, no `clear`)
preserves the value, whatever `get` / `exists` / `keys` / `len` traffic and
environment inputs occur in between. -/
theorem c1_set_then_get_until_overwrite (st : ShardedStore) (k v : List Nat)
    (t tUp : Nat) (hwf : 0 < st.numShards) (ops : List StoreOp)
    (hops : ∀ op ∈ ops, affectsKey k op = false) (t' : Nat) (ht : t ≤ t')
    (mm r u : Nat) :
    ((runMainStore (st.set k v none t tUp) ops).getTouch k t' mm r u).1 = some v := by
  have h0 : 0 < (st.set k v none t tUp).numShards := by
    rw [numShards_set]
    exact hwf
  have hp := hasPersistent_set_self st k v t tUp hwf
  have hr := hasPersistent_runMain ops _ k v h0 hp hops
  exact getTouch_of_hasPersistent _ k v t' mm r u hr.1

theorem c1_witness :
    ((runMainStore ((ShardedStore.new 2).set [1] [2] none 3 0)
        [StoreOp.setOp [9] [8] none 4 0, StoreOp.delOp [[9]],
         StoreOp.getOp [1] 5 0 0 0]).getTouch [1] 7 0 0 0).1 = some [2] :=
  c1_set_then_get_until_overwrite (ShardedStore.new 2) [1] [2] 3 0 (by decide) _
    (by decide) 7 (by decide) 0 0 0

/-- C5: at the shard layer, `set(k, v, Some 0, now)` stores `expiry = now`,
and an immediately following `get(k, now)` returns `None` (the expiry
predicate is `now >= expiry`) and removes the entry. -/
theorem c5_ttl_zero_expires_immediately (st : ShardedStore) (k v : List Nat)
    (now up mm r u : Nat) (hwf : 0 < st.numShards) (hnow : now < u64size) :
    shardLookup (((st.set k v (some 0) now up)).getShard k) k
        = some ⟨v, some now, up⟩ ∧
    (((st.set k v (some 0) now up)).getTouch k now mm r u).1 = none ∧
    shardLookup (((((st.set k v (some 0) now up)).getTouch k now mm r u).2).getShard k) k
        = none := by
  have h0 : 0 < (st.set k v (some 0) now up).numShards := by
    rw [numShards_set]
    exact hwf
  have hmod : (now + 0) % u64size = now := by
    rw [Nat.add_zero]
    exact Nat.mod_eq_of_lt hnow
  have hlook : shardLookup ((st.set k v (some 0) now up).getShard k) k
      = some ⟨v, some now, up⟩ := by
    simp only [ShardedStore.set, Option.map_some']
    rw [getShard_modify st k k _ hwf, if_pos rfl, shardLookup_insert_self, hmod]
  refine ⟨hlook, ?_, ?_⟩
  · unfold ShardedStore.getTouch
    rw [hlook]
    simp
  · unfold ShardedStore.getTouch
    rw [hlook]
    simp only [ge_iff_le, le_refl, if_pos]
    rw [getShard_modify _ k k _ h0, if_pos rfl, shardLookup_remove_self]

theorem c5_witness :
    shardLookup ((((ShardedStore.new 1).set [5] [6] (some 0) 9 0)).getShard [5]) [5]
        = some ⟨[6], some 9, 0⟩ ∧
    ((((ShardedStore.new 1).set [5] [6] (some 0) 9 0)).getTouch [5] 9 0 0 0).1 = none ∧
    shardLookup ((((((ShardedStore.new 1).set [5] [6] (some 0) 9 0)).getTouch
        [5] 9 0 0 0).2).getShard [5]) [5] = none :=
  c5_ttl_zero_expires_immediately (ShardedStore.new 1) [5] [6] 9 0 0 0 0
    (by decide) (by decide)

/-! ## Writer digits and parser number scanning -/

theorem natDecGo_zero (fuel : Nat) : natDecGo fuel 0 = [] := by
  cases fuel <;> rfl

theorem decValFrom_append_single (acc : Nat) (xs : List Nat) (d : Nat) :
    decValFrom acc (xs ++ [d]) = decValFrom acc xs * 10 + (d - 48) := by
  simp [decValFrom, List.foldl_append]

theorem natDecGo_spec (n : Nat) : ∀ fuel, n ≤ fuel →
    (∀ d ∈ natDecGo fuel n, isDigitByte d = true) ∧
    decValFrom 0 (natDecGo fuel n) = n := by
  induction n using Nat.strong_induction_on with
  | _ n ih =>
    intro fuel hf
    cases n with
    | zero => simp [natDecGo_zero, decValFrom]
    | succ m =>
      cases fuel with
      | zero => omega
      | succ f =>
        have hdiv : (m + 1) / 10 < m + 1 := Nat.div_lt_self (Nat.succ_pos m) (by omega)
        have hle : (m + 1) / 10 ≤ f := by omega
        obtain ⟨hd, hv⟩ := ih ((m + 1) / 10) hdiv f hle
        constructor
        · intro d hdm
          simp only [natDecGo, List.mem_append, List.mem_singleton] at hdm
          rcases hdm with hh | hh
          · exact hd d hh
          · subst hh
            simp only [isDigitByte, Bool.and_eq_true, decide_eq_true_eq]
            omega
        · simp only [natDecGo]
          rw [decValFrom_append_single, hv]
          omega

theorem natDec_digits (n : Nat) : ∀ d ∈ natDec n, isDigitByte d = true := by
  unfold natDec
  by_cases h : n = 0
  · rw [if_pos h]
    intro d hd
    simp at hd
    subst hd
    rfl
  · rw [if_neg h]
    exact (natDecGo_spec n n (le_refl n)).1

theorem decValFrom_natDec (n : Nat) : decValFrom 0 (natDec n) = n := by
  unfold natDec
  by_cases h : n = 0
  · rw [if_pos h, h]
    rfl
  · rw [if_neg h]
    exact (natDecGo_spec n n (le_refl n)).2

theorem natDec_ne_nil (n : Nat) : natDec n ≠ [] := by
  unfold natDec
  by_cases h : n = 0
  · rw [if_pos h]
    simp
  · rw [if_neg h]
    intro hnil
    have := (natDecGo_spec n n (le_refl n)).2
    rw [hnil] at this
    exact h (by simpa [decValFrom] using this.symm)

theorem foldlMod_eq_mod (ds : List Nat) : ∀ acc : Nat,
    foldlMod (acc % u64size) ds = decValFrom acc ds % u64size := by
  induction ds with
  | nil =>
    intro acc
    simp [foldlMod, decValFrom]
  | cons d ds ih =>
    intro acc
    simp only [foldlMod, decValFrom, List.foldl_cons]
    have h1 : (acc % u64size * 10 + (d - 48)) % u64size
        = (acc * 10 + (d - 48)) % u64size := by
      conv_lhs => rw [Nat.add_mod, Nat.mul_mod, Nat.mod_mod_of_dvd acc dvd_rfl]
      conv_rhs => rw [Nat.add_mod, Nat.mul_mod]
    rw [h1]
    have h2 := ih (acc * 10 + (d - 48))
    simpa [foldlMod, decValFrom] using h2

theorem isDigitByte_ne_cr (d : Nat) (h : isDigitByte d = true) : ¬ d = 13 := by
  simp only [isDigitByte, Bool.and_eq_true, decide_eq_true_eq] at h
  omega

theorem scanNum_digits_append (ds : List Nat) : ∀ (rest : List Nat) (acc : Nat),
    (∀ d ∈ ds, isDigitByte d = true) →
    scanNum (ds ++ 13 :: 10 :: rest) acc = .ok (foldlMod acc ds, rest) := by
  induction ds with
  | nil =>
    intro rest acc _
    rfl
  | cons d ds ih =>
    intro rest acc hd
    have hdd : isDigitByte d = true := hd d (List.mem_cons_self d ds)
    have hne : ¬ d = 13 := isDigitByte_ne_cr d hdd
    show scanNum (d :: (ds ++ 13 :: 10 :: rest)) acc = _
    simp only [scanNum]
    rw [if_neg hne, if_pos hdd]
    rw [ih rest _ (fun x hx => hd x (List.mem_cons_of_mem d hx))]
    rfl

theorem scanNum_err_append (ds : List Nat) : ∀ (rest : List Nat) (acc c : Nat),
    (∀ d ∈ ds, isDigitByte d = true) → isDigitByte c = false → c ≠ 13 →
    scanNum (ds ++ c :: rest) acc = .err := by
  induction ds with
  | nil =>
    intro rest acc c _ hc h13
    have hcb : ¬ (isDigitByte c = true) := by simp [hc]
    show scanNum (c :: rest) acc = _
    simp only [scanNum]
    rw [if_neg h13, if_neg hcb]
  | cons d ds ih =>
    intro rest acc c hd hc h13
    have hdd : isDigitByte d = true := hd d (List.mem_cons_self d ds)
    have hne : ¬ d = 13 := isDigitByte_ne_cr d hdd
    show scanNum (d :: (ds ++ c :: rest)) acc = _
    simp only [scanNum]
    rw [if_neg hne, if_pos hdd]
    exact ih rest _ c (fun x hx => hd x (List.mem_cons_of_mem d hx)) hc h13

theorem scanNum_natDec (n : Nat) (rest : List Nat) (h : n < u64size) :
    scanNum (natDec n ++ 13 :: 10 :: rest) 0 = .ok (n, rest) := by
  rw [scanNum_digits_append (natDec n) rest 0 (natDec_digits n)]
  have h0 : foldlMod 0 (natDec n) = foldlMod (0 % u64size) (natDec n) := rfl
  rw [h0, foldlMod_eq_mod, decValFrom_natDec, Nat.mod_eq_of_lt h]

theorem takeAppendSelf {α : Type} (a b : List α) : (a ++ b).take a.length = a := by
  induction a with
  | nil => rfl
  | cons x xs ih => simp [ih]

theorem dropAppendSelf {α : Type} (a b : List α) : (a ++ b).drop a.length = b := by
  induction a with
  | nil => rfl
  | cons x xs ih => simp [ih]

theorem parseBulks_cons_eq (n : Nat) (tail : List Nat) (acc : List (List Nat))
    (len : Nat) (rest2 : List Nat) (h : scanNum tail 0 = .ok (len, rest2)) :
    parseBulks (n + 1) (36 :: tail) acc =
      if rest2.length < len + 2 then .more
      else parseBulks n (rest2.drop (len + 2)) (acc ++ [rest2.take len]) := by
  simp [parseBulks, h]

theorem tryParse_cons_ok (tail : List Nat) (len : Nat) (rest2 : List Nat)
    (h4 : ¬ ((42 :: tail : List Nat).length < 4))
    (h : scanNum tail 0 = .ok (len, rest2)) :
    tryParse (42 :: tail) = parseBulks len rest2 [] := by
  unfold tryParse
  rw [if_neg h4]
  simp [h]

theorem tryParse_cons_err (tail : List Nat)
    (h4 : ¬ ((42 :: tail : List Nat).length < 4))
    (h : scanNum tail 0 = .err) :
    tryParse (42 :: tail) = .err := by
  unfold tryParse
  rw [if_neg h4]
  simp [h]

theorem parseBulks_encode (elems : List (List Nat)) :
    ∀ (acc : List (List Nat)) (rest : List Nat),
    (∀ a ∈ elems, a.length < u64size) →
    parseBulks elems.length ((elems.map writeBulkString).flatten ++ rest) acc
      = .ok (acc ++ elems, rest) := by
  induction elems with
  | nil =>
    intro acc rest _
    simp [parseBulks]
  | cons a es ih =>
    intro acc rest h
    have ha : a.length < u64size := h a (List.mem_cons_self a es)
    have hbuf : ((a :: es).map writeBulkString).flatten ++ rest
        = 36 :: (natDec a.length ++ 13 :: 10 ::
            (a ++ 13 :: 10 :: ((es.map writeBulkString).flatten ++ rest))) := by
      simp [writeBulkString, CRLF]
    rw [hbuf]
    show parseBulks (es.length + 1) _ acc = _
    rw [parseBulks_cons_eq es.length _ acc a.length _
      (scanNum_natDec a.length _ ha)]
    have hlen : ¬ ((a ++ 13 :: 10 :: ((es.map writeBulkString).flatten ++ rest)).length
        < a.length + 2) := by
      simp only [List.length_append, List.length_cons]
      omega
    rw [if_neg hlen]
    have htake : (a ++ 13 :: 10 :: ((es.map writeBulkString).flatten ++ rest)).take a.length
        = a := by
      have := takeAppendSelf a (13 :: 10 :: ((es.map writeBulkString).flatten ++ rest))
      simpa using this
    have hdrop : (a ++ 13 :: 10 :: ((es.map writeBulkString).flatten ++ rest)).drop
        (a.length + 2) = (es.map writeBulkString).flatten ++ rest := by
      have hX : a ++ 13 :: 10 :: ((es.map writeBulkString).flatten ++ rest)
          = (a ++ [13, 10]) ++ ((es.map writeBulkString).flatten ++ rest) := by
        simp
      rw [hX]
      have h2 : (a ++ [13, 10]).length = a.length + 2 := by simp
      rw [← h2]
      exact dropAppendSelf _ _
    rw [htake, hdrop]
    rw [ih (acc ++ [a]) rest (fun x hx => h x (List.mem_cons_of_mem a hx))]
    simp

/-- C7: the wire codec round-trips.  For every argv of arbitrary byte
strings (argv count and element lengths within `usize`, as in the Rust
types), parsing the exact bytes produced by `write_array` succeeds, yields
the same argv element-for-element, and consumes exactly those bytes (the
unconsumed suffix is empty). -/
theorem c7_writer_parser_roundtrip (argv : List (List Nat))
    (hn : argv.length < u64size) (ha : ∀ a ∈ argv, a.length < u64size) :
    tryParse (writeArray argv) = .ok (argv, []) := by
  have hpos : 0 < (natDec argv.length).length :=
    List.length_pos.mpr (natDec_ne_nil argv.length)
  have hbuf : writeArray argv
      = 42 :: (natDec argv.length ++ 13 :: 10 :: ((argv.map writeBulkString).flatten ++ [])) := by
    simp [writeArray, CRLF]
  rw [hbuf]
  have h4 : ¬ ((42 :: (natDec argv.length ++ 13 :: 10 ::
      ((argv.map writeBulkString).flatten ++ [])) : List Nat).length < 4) := by
    simp only [List.length_cons, List.length_append]
    omega
  rw [tryParse_cons_ok _ argv.length _ h4 (scanNum_natDec argv.length _ hn)]
  rw [parseBulks_encode argv [] [] ha]
  simp

theorem c7_witness :
    tryParse (writeArray [[102, 111, 111], []]) = PR.ok ([[102, 111, 111], []], []) :=
  c7_writer_parser_roundtrip [[102, 111, 111], []] (by decide) (by decide)

/-- C4 counterexample: the buffer `*1\r\n$3\r\nfooXY` violates the grammar
(the two bytes after the bulk payload are `XY`, not CRLF), yet `try_parse`
does not signal a fatal error: it succeeds, yields `["foo"]`, and consumes
the malformed framing bytes. -/
theorem c4_counterexample :
    tryParse [42, 49, 13, 10, 36, 51, 13, 10, 102, 111, 111, 88, 89]
        = PR.ok ([[102, 111, 111]], []) ∧ ([88, 89] : List Nat) ≠ CRLF := by
  decide

/-- C4 (amended): the parser treats as fatal exactly (1) a first byte other
than `*` once at least 4 bytes are buffered, and (2) a byte that is neither
a digit nor CR where the array count or a bulk length is being read.  Other
framing violations are not fatal: a CR followed by a non-LF byte and a
missing `$` yield "need more bytes", and the two bytes after a bulk payload
are consumed without validation (see the counterexample). -/
theorem c4_amendment :
    (∀ (b : Nat) (rest : List Nat), 4 ≤ (b :: rest : List Nat).length → b ≠ 42 →
        tryParse (b :: rest) = .err) ∧
    (∀ (ds : List Nat) (c : Nat) (rest : List Nat),
        (∀ d ∈ ds, isDigitByte d = true) → isDigitByte c = false → c ≠ 13 →
        4 ≤ (42 :: (ds ++ c :: rest) : List Nat).length →
        tryParse (42 :: (ds ++ c :: rest)) = .err) ∧
    (∀ (ds : List Nat) (c : Nat) (rest : List Nat),
        (∀ d ∈ ds, isDigitByte d = true) → isDigitByte c = false → c ≠ 13 →
        tryParse (42 :: 49 :: 13 :: 10 :: 36 :: (ds ++ c :: rest)) = .err) := by
  refine ⟨?_, ?_, ?_⟩
  · intro b rest h4 hb
    unfold tryParse
    rw [if_neg (by simpa using Nat.not_lt.mpr h4)]
    simp [hb]
  · intro ds c rest hds hc h13 h4
    exact tryParse_cons_err _ (by simpa using Nat.not_lt.mpr h4)
      (scanNum_err_append ds rest 0 c hds hc h13)
  · intro ds c rest hds hc h13
    have h4 : ¬ ((42 :: 49 :: 13 :: 10 :: 36 :: (ds ++ c :: rest) : List Nat).length < 4) := by
      simp only [List.length_cons]
      omega
    have hsc : scanNum (49 :: 13 :: 10 :: 36 :: (ds ++ c :: rest)) 0
        = .ok (1, 36 :: (ds ++ c :: rest)) := by
      show scanNum ([49] ++ 13 :: 10 :: (36 :: (ds ++ c :: rest))) 0 = _
      rw [scanNum_digits_append [49] _ 0 (by decide)]
      rfl
    rw [tryParse_cons_ok _ 1 _ h4 hsc]
    simp [parseBulks, scanNum_err_append ds rest 0 c hds hc h13]

theorem c4_witness :
    tryParse [65, 66, 67, 68] = PR.err ∧
    tryParse (42 :: ([49] ++ 88 :: [13, 10])) = PR.err ∧
    tryParse (42 :: 49 :: 13 :: 10 :: 36 :: ([51] ++ 88 :: [13, 10])) = PR.err :=
  ⟨c4_amendment.1 65 [66, 67, 68] (by decide) (by decide),
   c4_amendment.2.1 [49] 88 [13, 10] (by decide) (by decide) (by decide) (by decide),
   c4_amendment.2.2 [51] 88 [13, 10] (by decide) (by decide) (by decide)⟩

/-! ## Executor lemmas -/

theorem eqIgnoreCase3_parts (a : List Nat) (b0 b1 b2 : Nat)
    (h : eqIgnoreCase3 a b0 b1 b2 = true) :
    a.length = 3 ∧ lc (a.getD 0 0) = b0 ∧ lc (a.getD 1 0) = b1 ∧ lc (a.getD 2 0) = b2 := by
  simp only [eqIgnoreCase3, Bool.and_eq_true, decide_eq_true_eq] at h
  exact ⟨h.1.1.1, h.1.1.2, h.1.2, h.2⟩

theorem eqIgnoreCase3_length (a : List Nat) (b0 b1 b2 : Nat)
    (h : eqIgnoreCase3 a b0 b1 b2 = true) : a.length = 3 :=
  (eqIgnoreCase3_parts a b0 b1 b2 h).1

theorem take3_getD0 (l : List Nat) : (l.take 3).getD 0 0 = l.getD 0 0 := by
  cases l <;> rfl

theorem isAuthCmd_length (cmd : List Nat) (h : isAuthCmd cmd = true) :
    cmd.length = 4 := by
  simp only [isAuthCmd, Bool.and_eq_true, decide_eq_true_eq] at h
  exact h.1.1

theorem isAuthCmd_b0 (cmd : List Nat) (h : isAuthCmd cmd = true) :
    lc (cmd.getD 0 0) = 97 := by
  simp only [isAuthCmd, Bool.and_eq_true, decide_eq_true_eq] at h
  have h0 := (eqIgnoreCase3_parts _ _ _ _ h.1.2).2.1
  rwa [take3_getD0] at h0

theorem isAuthCmd_not_ping (cmd : List Nat) (h : isAuthCmd cmd = true) :
    isPingCmd cmd = false := by
  have h0 := isAuthCmd_b0 cmd h
  by_contra hp
  rw [Bool.not_eq_false] at hp
  simp only [isPingCmd, Bool.and_eq_true, decide_eq_true_eq] at hp
  have h0p := (eqIgnoreCase3_parts _ _ _ _ hp.1.2).2.1
  rw [take3_getD0] at h0p
  omega

theorem isAuthCmd_not_keys (cmd : List Nat) (h : isAuthCmd cmd = true) :
    isKeysCmd cmd = false := by
  have h0 := isAuthCmd_b0 cmd h
  by_contra hp
  rw [Bool.not_eq_false] at hp
  simp only [isKeysCmd, Bool.and_eq_true, decide_eq_true_eq] at hp
  have h0p := (eqIgnoreCase3_parts _ _ _ _ hp.1).2.1
  rw [take3_getD0] at h0p
  omega

/-- C9: `execute_command` on an empty argv does not panic: it appends exactly
`-ERR empty command\r\n`, still increments `TOTAL_COMMANDS` once, leaves the
store (and the other counters) unchanged, and leaves `authenticated` as it
was. -/
theorem c9_empty_command (cfg : Cfg) (σ : ExecState) (auth : Bool) (now : Nat)
    (env : ExecEnv) :
    execute_command cfg σ [] auth now env =
      ({ σ with totalCommands := σ.totalCommands + 1 }, writeError emptyCmdMsg, auth) := by
  rfl

/-- C2: under the `noeviction` policy, whenever
`memory_used + entry_size(key_len, value_len) > max_memory` with
`max_memory > 0`, an (authenticated) SET replies the OOM error and leaves
both the store contents and the `memory_used` counter unchanged (only
`TOTAL_COMMANDS` advances). -/
theorem c2_noeviction_oom (cfg : Cfg) (σ : ExecState) (cmd0 k v : List Nat)
    (rest : List (List Nat)) (now : Nat) (env : ExecEnv)
    (hpol : cfg.evictionPolicy = .noEviction) (hmax : 0 < cfg.maxMemory)
    (hover : cfg.maxMemory < σ.memUsed + entrySize k.length v.length)
    (hcmd : eqIgnoreCase3 cmd0 115 101 116 = true) :
    execute_command cfg σ (cmd0 :: k :: v :: rest) true now env =
      ({ σ with totalCommands := σ.totalCommands + 1 }, writeError oomMsg, true) := by
  have hl : cmd0.length = 3 := eqIgnoreCase3_length _ _ _ _ hcmd
  have hmax0 : ¬ (cfg.maxMemory = 0) := by omega
  have hle : ¬ (σ.memUsed + entrySize k.length v.length ≤ cfg.maxMemory) := by omega
  have hev : evictIfNeeded cfg ⟨σ.store, σ.memUsed, σ.evictedKeys, env.rng⟩
      (entrySize k.length v.length)
      = (false, ⟨σ.store, σ.memUsed, σ.evictedKeys, env.rng⟩) := by
    unfold evictIfNeeded
    rw [if_neg hmax0, if_neg hle, if_pos hpol]
  simp [execute_command, hl, hcmd, hev]

theorem c2_witness :
    execute_command ⟨[], 100, EvictionPolicy.noEviction, 5⟩
        ⟨ShardedStore.new 1, 95, 0, 0⟩ [[115, 101, 116], [107], [118]] true 0
        ⟨0, 0, [], []⟩
      = (⟨ShardedStore.new 1, 95, 1, 0⟩, writeError oomMsg, true) :=
  c2_noeviction_oom ⟨[], 100, EvictionPolicy.noEviction, 5⟩
    ⟨ShardedStore.new 1, 95, 0, 0⟩ [115, 101, 116] [107] [118] [] 0 ⟨0, 0, [], []⟩
    rfl (by decide) (by decide) (by decide)

/-- C3 counterexample: with password `"a"` configured, AUTH with the
non-matching password `"b"` appends `-ERR ERR invalid password\r\n`
(`write_error` prepends `-ERR ` to a message that itself begins `ERR `),
not `-ERR invalid password\r\n` as the claim states. -/
theorem c3_counterexample :
    (execute_command ⟨[97], 0, EvictionPolicy.allKeysLru, 5⟩
        ⟨ShardedStore.new 1, 0, 0, 0⟩ [[97, 117, 116, 104], [98]] false 0
        ⟨0, 0, [], []⟩).2.1
      = [45, 69, 82, 82, 32, 69, 82, 82, 32, 105, 110, 118, 97, 108, 105, 100,
         32, 112, 97, 115, 115, 119, 111, 114, 100, 13, 10] ∧
    (execute_command ⟨[97], 0, EvictionPolicy.allKeysLru, 5⟩
        ⟨ShardedStore.new 1, 0, 0, 0⟩ [[97, 117, 116, 104], [98]] false 0
        ⟨0, 0, [], []⟩).2.1
      ≠ [45, 69, 82, 82, 32, 105, 110, 118, 97, 108, 105, 100, 32, 112, 97,
         115, 115, 119, 111, 114, 100, 13, 10] := by
  decide

/-- C3 (amended): when a password is configured and AUTH is executed with a
non-matching password argument, the bytes appended to the writer are exactly
`-ERR ERR invalid password` followed by CRLF (the doubled `ERR ` comes from
`write_error` prepending `-ERR ` to the message `ERR invalid password`), the
store and counters other than `TOTAL_COMMANDS` are untouched, and
`state.authenticated` is unchanged (the connection continues). -/
theorem c3_amendment (cfg : Cfg) (σ : ExecState) (cmd0 pw : List Nat)
    (rest : List (List Nat)) (auth : Bool) (now : Nat) (env : ExecEnv)
    (hauth : isAuthCmd cmd0 = true) (hpw : cfg.password ≠ [])
    (hne : pw ≠ cfg.password) :
    execute_command cfg σ (cmd0 :: pw :: rest) auth now env =
      ({ σ with totalCommands := σ.totalCommands + 1 },
       [45, 69, 82, 82, 32, 69, 82, 82, 32, 105, 110, 118, 97, 108, 105, 100,
        32, 112, 97, 115, 115, 119, 111, 114, 100, 13, 10], auth) := by
  have hl : cmd0.length = 4 := isAuthCmd_length cmd0 hauth
  have hping := isAuthCmd_not_ping cmd0 hauth
  have hkeys := isAuthCmd_not_keys cmd0 hauth
  simp [execute_command, hl, hauth, hping, hkeys, hpw, hne, writeError,
    errInvalidPasswordMsg, CRLF]

theorem c3_witness :
    execute_command ⟨[97], 0, EvictionPolicy.allKeysLru, 5⟩
        ⟨ShardedStore.new 1, 0, 0, 0⟩ [[97, 117, 116, 104], [98]] false 0
        ⟨0, 0, [], []⟩
      = (⟨ShardedStore.new 1, 0, 1, 0⟩,
         [45, 69, 82, 82, 32, 69, 82, 82, 32, 105, 110, 118, 97, 108, 105, 100,
          32, 112, 97, 115, 115, 119, 111, 114, 100, 13, 10], false) :=
  c3_amendment ⟨[97], 0, EvictionPolicy.allKeysLru, 5⟩ ⟨ShardedStore.new 1, 0, 0, 0⟩
    [97, 117, 116, 104] [98] [] false 0 ⟨0, 0, [], []⟩ (by decide) (by decide)
    (by decide)

/-- C8 counterexample: a SET with exactly 4 argv elements is not rejected:
the executor stores the key (ignoring the extra argument) and replies
`+OK`, mutating the store. -/
theorem c8_counterexample :
    (execute_command ⟨[], 0, EvictionPolicy.allKeysLru, 5⟩
        ⟨ShardedStore.new 1, 0, 0, 0⟩ [[115, 101, 116], [107], [118], [120]]
        true 0 ⟨0, 0, [], []⟩).2.1 = writeSimpleString okMsg ∧
    (execute_command ⟨[], 0, EvictionPolicy.allKeysLru, 5⟩
        ⟨ShardedStore.new 1, 0, 0, 0⟩ [[115, 101, 116], [107], [118], [120]]
        true 0 ⟨0, 0, [], []⟩).2.1 ≠ writeError wrongArgsMsg ∧
    (execute_command ⟨[], 0, EvictionPolicy.allKeysLru, 5⟩
        ⟨ShardedStore.new 1, 0, 0, 0⟩ [[115, 101, 116], [107], [118], [120]]
        true 0 ⟨0, 0, [], []⟩).1.store ≠ ShardedStore.new 1 := by
  decide

/-- C8 (amended): a SET whose argv has fewer than 3 elements replies
`-ERR wrong number of arguments` and does not modify the store; any SET with
3 or more elements is accepted (extra arguments are ignored, except that
positions 4 and 5 are consulted for EX/TTL when present — see the
counterexample at 4 elements). -/
theorem c8_amendment (cfg : Cfg) (σ : ExecState) (cmd0 : List Nat)
    (rest : List (List Nat)) (now : Nat) (env : ExecEnv)
    (hcmd : eqIgnoreCase3 cmd0 115 101 116 = true) (hlen : rest.length < 2) :
    execute_command cfg σ (cmd0 :: rest) true now env =
      ({ σ with totalCommands := σ.totalCommands + 1 }, writeError wrongArgsMsg, true) := by
  have hl : cmd0.length = 3 := eqIgnoreCase3_length _ _ _ _ hcmd
  have hge : ¬ (2 ≤ rest.length) := by omega
  simp [execute_command, hl, hcmd, hge]

theorem c8_witness :
    execute_command ⟨[], 0, EvictionPolicy.allKeysLru, 5⟩
        ⟨ShardedStore.new 1, 0, 0, 0⟩ [[115, 101, 116], [107]] true 0 ⟨0, 0, [], []⟩
      = (⟨ShardedStore.new 1, 0, 1, 0⟩, writeError wrongArgsMsg, true) :=
  c8_amendment ⟨[], 0, EvictionPolicy.allKeysLru, 5⟩ ⟨ShardedStore.new 1, 0, 0, 0⟩
    [115, 101, 116] [[107]] 0 ⟨0, 0, [], []⟩ (by decide) (by decide)

/-! ## SET EX TTL parsing (claim C6) -/

theorem mod_mul10_add (acc d : Nat) :
    (acc % u64size * 10 + d) % u64size = (acc * 10 + d) % u64size := by
  conv_lhs => rw [Nat.add_mod, Nat.mul_mod, Nat.mod_mod_of_dvd acc dvd_rfl]
  conv_rhs => rw [Nat.add_mod, Nat.mul_mod]

theorem parseTtlVal_eq (bs : List Nat) : ∀ acc : Nat,
    parseTtlVal bs (acc % u64size)
      = decValFrom acc (bs.takeWhile isDigitByte) % u64size := by
  induction bs with
  | nil =>
    intro acc
    simp [parseTtlVal, decValFrom]
  | cons b bs ih =>
    intro acc
    by_cases hb : isDigitByte b = true
    · rw [List.takeWhile_cons_of_pos hb]
      simp only [parseTtlVal, hb, if_pos]
      rw [mod_mul10_add, ih (acc * 10 + (b - 48))]
      simp [decValFrom]
    · rw [List.takeWhile_cons_of_neg (by simpa using hb)]
      simp only [parseTtlVal]
      rw [if_neg (by simpa using hb)]
      simp [decValFrom]

/-- C6 counterexample: for the TTL argument `"18446744073709551616"`
(decimal 2^64) the longest digit prefix has decimal value 2^64 ≠ 0, yet an
authenticated `SET k v EX 18446744073709551616` stores the entry with *no*
expiry — the u64 accumulator wraps to 0, which is treated as "no TTL" — so
the applied TTL is not the decimal value of the longest digit prefix. -/
theorem c6_counterexample :
    digitPrefixVal [49, 56, 52, 52, 54, 55, 52, 52, 48, 55, 51, 55, 48, 57,
        53, 53, 49, 54, 49, 54] ≠ 0 ∧
    parseTtlVal [49, 56, 52, 52, 54, 55, 52, 52, 48, 55, 51, 55, 48, 57,
        53, 53, 49, 54, 49, 54] 0 = 0 ∧
    shardLookup (((execute_command ⟨[], 0, EvictionPolicy.allKeysLru, 5⟩
        ⟨ShardedStore.new 1, 0, 0, 0⟩
        [[115, 101, 116], [107], [118], [101, 120],
         [49, 56, 52, 52, 54, 55, 52, 52, 48, 55, 51, 55, 48, 57, 53, 53, 49,
          54, 49, 54]] true 5 ⟨0, 0, [], []⟩).1.store).getShard [107]) [107]
      = some ⟨[118], none, 0⟩ := by
  decide

/-- C6 (amended): in `SET <k> <v> EX <ttl>` (4th argv exactly two bytes
matching `EX` case-insensitively) the TTL is the decimal value of the
longest digit prefix of the 5th argv *reduced modulo 2^64* (u64 wrapping;
parsing stops at the first non-digit without error), and when that reduced
value is 0 no TTL is applied: provided the memory admission passes
(`max_memory = 0` here) the stored entry has no expiry and is returned by
`get` at every later time. -/
theorem c6_amendment :
    (∀ bs : List Nat, parseTtlVal bs 0 = digitPrefixVal bs % u64size) ∧
    (∀ (cfg : Cfg) (σ : ExecState) (cmd0 k v exArg ttlArg : List Nat)
        (rest : List (List Nat)) (now : Nat) (env : ExecEnv),
      eqIgnoreCase3 cmd0 115 101 116 = true →
      exArg.length = 2 → lc (exArg.getD 0 0) = 101 → lc (exArg.getD 1 0) = 120 →
      parseTtlVal ttlArg 0 = 0 →
      cfg.maxMemory = 0 → 0 < σ.store.numShards →
      (∃ la, shardLookup
          (((execute_command cfg σ (cmd0 :: k :: v :: exArg :: ttlArg :: rest)
              true now env).1.store).getShard k) k = some ⟨v, none, la⟩) ∧
      (∀ t2 mm2 r2 u2,
        (((execute_command cfg σ (cmd0 :: k :: v :: exArg :: ttlArg :: rest)
            true now env).1.store).getTouch k t2 mm2 r2 u2).1 = some v)) := by
  constructor
  · intro bs
    have h0 : parseTtlVal bs 0 = parseTtlVal bs (0 % u64size) := rfl
    rw [h0, parseTtlVal_eq bs 0]
    rfl
  · intro cfg σ cmd0 k v exArg ttlArg rest now env hcmd hexlen hex0 hex1 httl hmm hwf
    have hl : cmd0.length = 3 := eqIgnoreCase3_length _ _ _ _ hcmd
    have hev : evictIfNeeded cfg ⟨σ.store, σ.memUsed, σ.evictedKeys, env.rng⟩
        (entrySize k.length v.length)
        = (true, ⟨σ.store, σ.memUsed, σ.evictedKeys, env.rng⟩) := by
      unfold evictIfNeeded
      rw [if_pos hmm]
    have hmm' : ¬ (0 < cfg.maxMemory) := by omega
    have hstore : (execute_command cfg σ (cmd0 :: k :: v :: exArg :: ttlArg :: rest)
        true now env).1.store = σ.store.set k v none now env.uptime := by
      simp [execute_command, hl, hcmd, hev, hexlen, hex0, hex1, httl, hmm']
    rw [hstore]
    have hp := hasPersistent_set_self σ.store k v now env.uptime hwf
    exact ⟨hp, fun t2 mm2 r2 u2 => getTouch_of_hasPersistent _ k v t2 mm2 r2 u2 hp⟩

theorem c6_witness :
    parseTtlVal [49, 120] 0 = digitPrefixVal [49, 120] % u64size ∧
    (∃ la, shardLookup (((execute_command ⟨[], 0, EvictionPolicy.allKeysLru, 5⟩
        ⟨ShardedStore.new 1, 0, 0, 0⟩
        [[115, 101, 116], [107], [118], [101, 120], [48]] true 5
        ⟨0, 0, [], []⟩).1.store).getShard [107]) [107] = some ⟨[118], none, la⟩) :=
  ⟨c6_amendment.1 [49, 120],
   (c6_amendment.2 ⟨[], 0, EvictionPolicy.allKeysLru, 5⟩ ⟨ShardedStore.new 1, 0, 0, 0⟩
      [115, 101, 116] [107] [118] [101, 120] [48] [] 5 ⟨0, 0, [], []⟩
      (by decide) (by decide) (by decide) (by decide) (by decide) (by decide)
      (by decide)).1⟩

/-! ## `lib.rs` / `main.rs` store equivalence (claim C10) -/

theorem eraseE_value (e : Entry) : (eraseE e).value = e.value := rfl

theorem eraseE_expiry (e : Entry) : (eraseE e).expiry = e.expiry := rfl

theorem entryLive_erase (e : Entry) (now : Nat) :
    entryLive (eraseE e) now = entryLive e now := rfl

theorem listModify_id {α : Type} (l : List α) (i : Nat) :
    listModify l i (fun x => x) = l := by
  induction l generalizing i with
  | nil => rfl
  | cons x xs ih =>
    cases i with
    | zero => rfl
    | succ n => simp [listModify, ih]

theorem map_listModify {α β : Type} (m : α → β) (f : α → α) (g : β → β)
    (hfg : ∀ x, m (f x) = g (m x)) : ∀ (l : List α) (i : Nat),
    (listModify l i f).map m = listModify (l.map m) i g := by
  intro l
  induction l with
  | nil => intro i; rfl
  | cons x xs ih =>
    intro i
    cases i with
    | zero => simp [listModify, hfg]
    | succ n => simp [listModify, ih]

theorem shardLookup_erase (sh : Shard) (k : List Nat) :
    shardLookup (eraseShard sh) k = (shardLookup sh k).map eraseE := by
  induction sh with
  | nil => rfl
  | cons p rest ih =>
    have ih' : shardLookup (rest.map (fun p => (p.1, eraseE p.2))) k
        = (shardLookup rest k).map eraseE := by simpa [eraseShard] using ih
    simp only [eraseShard, List.map_cons]
    by_cases h : p.1 = k
    · simp [shardLookup, h]
    · simp [shardLookup, h, ih']

theorem eraseShard_insert (sh : Shard) (k : List Nat) (e : Entry) :
    eraseShard (shardInsert sh k e) = shardInsert (eraseShard sh) k (eraseE e) := by
  induction sh with
  | nil => rfl
  | cons p rest ih =>
    obtain ⟨k', e'⟩ := p
    by_cases h : k' = k
    · simp [shardInsert, h, eraseShard]
    · simp [shardInsert, h, eraseShard, ih]
      simpa [eraseShard] using ih

theorem eraseShard_remove (sh : Shard) (k : List Nat) :
    eraseShard (shardRemove sh k) = shardRemove (eraseShard sh) k := by
  induction sh with
  | nil => rfl
  | cons p rest ih =>
    obtain ⟨k', e'⟩ := p
    by_cases h : k' = k
    · simpa [shardRemove, h, eraseShard] using ih
    · simp only [shardRemove, h, if_neg, eraseShard, List.map_cons]
      simpa [eraseShard] using ih

theorem eraseShard_touch (sh : Shard) (k : List Nat) (u : Nat) :
    eraseShard (shardTouch sh k u) = eraseShard sh := by
  induction sh with
  | nil => rfl
  | cons p rest ih =>
    simp only [shardTouch, eraseShard, List.map_cons] at *
    by_cases h : p.1 = k
    · rw [if_pos h]
      simp only [ih]
      rfl
    · rw [if_neg h]
      simp only [ih]

theorem eraseShard_maybeTouch (sh : Shard) (k : List Nat) (mm r u : Nat) :
    eraseShard (maybeTouch mm r u sh k) = eraseShard sh := by
  unfold maybeTouch
  by_cases h0 : mm = 0
  · rw [if_pos h0]
  · rw [if_neg h0]
    by_cases h90 : r < 90
    · rw [if_pos h90]
    · rw [if_neg h90]
      exact eraseShard_touch sh k u

theorem numShards_erase (st : ShardedStore) : (eraseLA st).numShards = st.numShards := by
  simp [eraseLA, ShardedStore.numShards]

theorem shardIdx_erase (st : ShardedStore) (k : List Nat) :
    (eraseLA st).shardIdx k = st.shardIdx k := by
  simp [ShardedStore.shardIdx, numShards_erase]

theorem getD_map_eraseShard (l : List Shard) (i : Nat) :
    (l.map eraseShard).getD i [] = eraseShard (l.getD i []) := by
  induction l generalizing i with
  | nil => cases i <;> rfl
  | cons x xs ih =>
    cases i with
    | zero => rfl
    | succ n => simpa using ih n

theorem getShard_erase (st : ShardedStore) (k : List Nat) :
    (eraseLA st).getShard k = eraseShard (st.getShard k) := by
  show ((eraseLA st).shards).getD ((eraseLA st).shardIdx k) [] = _
  rw [shardIdx_erase]
  exact getD_map_eraseShard st.shards (st.shardIdx k)

theorem eraseLA_mk_modify (st : ShardedStore) (i : Nat) (f : Shard → Shard)
    (g : Shard → Shard) (hfg : ∀ sh, eraseShard (f sh) = g (eraseShard sh)) :
    eraseLA (ShardedStore.mk (listModify st.shards i f))
      = ShardedStore.mk (listModify (st.shards.map eraseShard) i g) := by
  unfold eraseLA
  simp only [ShardedStore.mk.injEq]
  exact map_listModify eraseShard f g hfg st.shards i

theorem eraseLA_set (st : ShardedStore) (k v : List Nat) (ttl : Option Nat)
    (now up : Nat) :
    eraseLA (st.set k v ttl now up) = LibStore.set (eraseLA st) k v ttl now := by
  unfold ShardedStore.set LibStore.set
  rw [shardIdx_erase st k]
  exact eraseLA_mk_modify st (st.shardIdx k) _ _
    (fun sh => eraseShard_insert sh k ⟨v, ttl.map (fun s => (now + s) % u64size), up⟩)

theorem getTouch_erase (st : ShardedStore) (k : List Nat) (now mm r u : Nat) :
    (st.getTouch k now mm r u).1 = (LibStore.get (eraseLA st) k now).1 ∧
    eraseLA ((st.getTouch k now mm r u).2) = (LibStore.get (eraseLA st) k now).2 := by
  unfold ShardedStore.getTouch LibStore.get
  rw [getShard_erase st k, shardLookup_erase, shardIdx_erase st k]
  rcases hL : shardLookup (st.getShard k) k with _ | e
  · simp [hL]
  · simp only [hL, Option.map_some']
    rcases hE : e.expiry with _ | exp
    · simp only [hE, eraseE_expiry, hE]
      refine ⟨by simp [eraseE_value], ?_⟩
      rw [eraseLA_mk_modify st (st.shardIdx k) _ (fun sh => sh)
        (fun sh => eraseShard_maybeTouch sh k mm r u)]
      show ShardedStore.mk (listModify ((eraseLA st).shards) (st.shardIdx k) (fun sh => sh))
          = eraseLA st
      rw [listModify_id]
    · simp only [eraseE_expiry, hE]
      by_cases hnow : now ≥ exp
      · simp only [if_pos hnow]
        refine ⟨by simp [eraseE_value], ?_⟩
        exact eraseLA_mk_modify st (st.shardIdx k) _ _
          (fun sh => eraseShard_remove sh k)
      · simp only [if_neg hnow]
        refine ⟨by simp [eraseE_value], ?_⟩
        rw [eraseLA_mk_modify st (st.shardIdx k) _ (fun sh => sh)
          (fun sh => eraseShard_maybeTouch sh k mm r u)]
        show ShardedStore.mk (listModify ((eraseLA st).shards) (st.shardIdx k) (fun sh => sh))
            = eraseLA st
        rw [listModify_id]

theorem removeKeys_erase (ks : List (List Nat)) : ∀ sh : Shard,
    (removeKeys (eraseShard sh) ks).1 = (removeKeys sh ks).1 ∧
    (removeKeys (eraseShard sh) ks).2 = eraseShard ((removeKeys sh ks).2) := by
  induction ks with
  | nil => intro sh; exact ⟨rfl, rfl⟩
  | cons a as ih =>
    intro sh
    simp only [removeKeys]
    have h1 := (ih (shardRemove sh a)).1
    have h2 := (ih (shardRemove sh a)).2
    rw [eraseShard_remove] at h1 h2
    constructor
    · rw [shardLookup_erase, h1]
      simp [Option.isSome_map]
    · rw [h2]

theorem delGo_erase (keys : List (List Nat)) (n : Nat) : ∀ (l : List Shard) (i : Nat),
    (delGo keys n (l.map eraseShard) i).1 = (delGo keys n l i).1 ∧
    (delGo keys n (l.map eraseShard) i).2 = (delGo keys n l i).2.map eraseShard := by
  intro l
  induction l with
  | nil => intro i; exact ⟨rfl, rfl⟩
  | cons sh rest ih =>
    intro i
    simp only [List.map_cons, delGo]
    have hr := removeKeys_erase (keys.filter (fun k => decide (fnvHash k % n = i))) sh
    have hi := ih (i + 1)
    constructor
    · rw [hr.1, hi.1]
    · rw [hr.2, hi.2]

theorem delete_erase (st : ShardedStore) (ks : List (List Nat)) :
    ((eraseLA st).delete ks).1 = (st.delete ks).1 ∧
    ((eraseLA st).delete ks).2 = eraseLA ((st.delete ks).2) := by
  unfold ShardedStore.delete
  rw [numShards_erase]
  have h := delGo_erase ks st.numShards st.shards 0
  constructor
  · exact h.1
  · show ShardedStore.mk (delGo ks st.numShards ((eraseLA st).shards) 0).2 = _
    rw [show (eraseLA st).shards = st.shards.map eraseShard from rfl, h.2]
    rfl

theorem existsCount_erase_aux (st : ShardedStore) (ks : List (List Nat)) (now : Nat) :
    ∀ c : Nat,
    ks.foldl (fun c k =>
      match shardLookup ((eraseLA st).getShard k) k with
      | some e => if entryLive e now then c + 1 else c
      | none => c) c
    = ks.foldl (fun c k =>
      match shardLookup (st.getShard k) k with
      | some e => if entryLive e now then c + 1 else c
      | none => c) c := by
  induction ks with
  | nil => intro c; rfl
  | cons a as ih =>
    intro c
    simp only [List.foldl_cons]
    rw [getShard_erase, shardLookup_erase]
    rcases hL : shardLookup (st.getShard a) a with _ | e
    · exact ih c
    · simp only [Option.map_some', entryLive_erase]
      exact ih _

theorem existsCount_erase (st : ShardedStore) (ks : List (List Nat)) (now : Nat) :
    (eraseLA st).existsCount ks now = st.existsCount ks now := by
  unfold ShardedStore.existsCount
  exact existsCount_erase_aux st ks now 0

theorem shard_keys_erase (sh : Shard) (now : Nat) :
    ((eraseShard sh).filter (fun p => entryLive p.2 now)).map Prod.fst
      = (sh.filter (fun p => entryLive p.2 now)).map Prod.fst := by
  induction sh with
  | nil => rfl
  | cons p rest ih =>
    simp only [eraseShard, List.map_cons, List.filter_cons]
    have he : entryLive (p.1, eraseE p.2).2 now = entryLive p.2 now := entryLive_erase p.2 now
    rw [he]
    by_cases hl : entryLive p.2 now
    · simp only [hl, if_pos]
      simpa [eraseShard] using ih
    · simp only [hl]
      simpa [eraseShard] using ih

theorem keysList_erase (st : ShardedStore) (now : Nat) :
    (eraseLA st).keysList now = st.keysList now := by
  show ((st.shards.map eraseShard).map
      (fun sh => (sh.filter (fun p => entryLive p.2 now)).map Prod.fst)).flatten = _
  unfold ShardedStore.keysList
  induction st.shards with
  | nil => rfl
  | cons sh rest ih =>
    simp only [List.map_cons, List.flatten_cons]
    rw [shard_keys_erase, ih]

theorem len_erase (st : ShardedStore) : (eraseLA st).len = st.len := by
  show ((st.shards.map eraseShard).map List.length).sum = _
  unfold ShardedStore.len
  induction st.shards with
  | nil => rfl
  | cons sh rest ih =>
    simp only [List.map_cons, List.sum_cons]
    rw [ih]
    simp [eraseShard]

theorem clear_erase (st : ShardedStore) : eraseLA (st.clear) = (eraseLA st).clear := by
  show ShardedStore.mk ((st.shards.map (fun _ => ([] : Shard))).map eraseShard)
      = ShardedStore.mk ((st.shards.map eraseShard).map (fun _ => ([] : Shard)))
  simp only [List.map_map, ShardedStore.mk.injEq]
  rfl

theorem stepEquiv (st : ShardedStore) (op : StoreOp) :
    (libStep (eraseLA st) op).1 = (mainStep st op).1 ∧
    (libStep (eraseLA st) op).2 = eraseLA ((mainStep st op).2) := by
  cases op with
  | setOp k v ttl now up =>
    exact ⟨rfl, (eraseLA_set st k v ttl now up).symm⟩
  | getOp k now mm r up =>
    have h := getTouch_erase st k now mm r up
    exact ⟨by simp only [libStep, mainStep]; rw [h.1],
           by simp only [libStep, mainStep]; rw [h.2]⟩
  | delOp ks =>
    have h := delete_erase st ks
    exact ⟨by simp only [libStep, mainStep]; rw [h.1],
           by simp only [libStep, mainStep]; rw [h.2]⟩
  | existsOp ks now =>
    exact ⟨by simp only [libStep, mainStep]; rw [existsCount_erase], rfl⟩
  | keysOp now =>
    exact ⟨by simp only [libStep, mainStep]; rw [keysList_erase], rfl⟩
  | lenOp =>
    exact ⟨by simp only [libStep, mainStep]; rw [len_erase], rfl⟩
  | clearOp =>
    exact ⟨rfl, (clear_erase st).symm⟩

theorem runEquiv (ops : List StoreOp) : ∀ st : ShardedStore,
    (runLib (eraseLA st) ops).1 = (runMain st ops).1 ∧
    (runLib (eraseLA st) ops).2 = eraseLA ((runMain st ops).2) := by
  induction ops with
  | nil => intro st; exact ⟨rfl, rfl⟩
  | cons op ops ih =>
    intro st
    have hs := stepEquiv st op
    simp only [runLib, runMain]
    rw [hs.1, hs.2]
    have h2 := ih ((mainStep st op).2)
    exact ⟨by rw [h2.1], h2.2⟩

/-- C10: the `lib.rs` `ShardedStore` and the `main.rs` `ShardedStore` are
observationally equivalent.  Started from the same shard count, every
sequence of set / get / delete / exists / keys / len / clear calls with the
same arguments produces identical outputs from both (values, counts, key
lists, and hence subsequent visibility); the final stores agree after
erasing the `last_accessed` bookkeeping, which is the only place the two
implementations differ (initialisation on `set` and the probabilistic
update on `get`) and is unobservable through these operations. -/
theorem c10_lib_main_equiv (n : Nat) (ops : List StoreOp) :
    (runLib (ShardedStore.new n) ops).1 = (runMain (ShardedStore.new n) ops).1 ∧
    (runLib (ShardedStore.new n) ops).2 = eraseLA ((runMain (ShardedStore.new n) ops).2) := by
  have herase : eraseLA (ShardedStore.new n) = ShardedStore.new n := by
    show ShardedStore.mk ((List.replicate n ([] : Shard)).map eraseShard)
        = ShardedStore.new n
    rw [List.map_replicate]
    rfl
  have h := runEquiv ops (ShardedStore.new n)
  rw [herase] at h
  exact h

end Redistill
